import Mathlib

/-!
Verification development for the always-defined attribute analysis pass of
the mypyc compiler (`mypyc/analysis/attrdefined.py`).  The pass and the
interfaces it consumes are shallowly embedded below; the theorems at the end
of the file settle the specification claims about the pass.
-/

namespace AttrDefined

/-- Attribute names. -/
abbrev AttrName := String

/-- Value representation of an attribute.  Only the `error_overlap` flag
matters to this pass.  Modelled from the spec: a representation whose bit
pattern can overlap the sentinel error value (`mypyc/ir/rtypes.py` is not
part of the sources). -/
structure RType where
  error_overlap : Bool
deriving DecidableEq, Repr

/-- IR operations relevant to the analysis.  Modelled from the spec, section
3 "Constructor CFG" (`mypyc/ir/ops.py` is not part of the sources):
attribute reads and writes on a register, calls (either a call recognized as
an `__init__` of a statically known class, or any other operation which may
or may not use the receiver), conditional branches, gotos, returns and
unreachable markers.  Registers are numbers; basic blocks are identified by
their index in the block list. -/
inductive Op where
  | setAttr (obj : Nat) (attr : AttrName)
  | getAttr (obj : Nat) (attr : AttrName)
  | callInit (callee : Nat)
  | callOther (usesSelf : Bool)
  | branch (onTrue onFalse : Nat)
  | goto (target : Nat)
  | ret
  | unreachable
deriving DecidableEq, Repr

/-- Targets of a control op (`ControlOp.targets()` in the IR); ops that are
not control ops have none, and returns and unreachable markers have an empty
target list. -/
def Op.targets : Op → List Nat
  | .branch t f => [t, f]
  | .goto t => [t]
  | _ => []

/-- Recognize the `Return` op. -/
def Op.isReturn : Op → Bool
  | .ret => true
  | _ => false

/-- Constructor function IR: argument registers and basic blocks.  Modelled
from the spec: the receiver register is the first argument register. -/
structure FuncIR where
  arg_regs : List Nat
  blocks : List (List Op)
deriving DecidableEq, Repr

/-- Class descriptor.  Modelled from the spec, section 3 "Data model"
(`mypyc/ir/class_ir.py` is not part of the sources).  Classes are identified
by their index into the compilation unit list; `mro` and `base_mro` list such
indices, self first.  `init` is the class's explicit constructor, if any.
The final four fields are the result fields written by the analysis passes;
they start out empty. -/
structure ClassIR where
  attributes : List (AttrName × RType) := []
  attrs_with_defaults : Finset AttrName := ∅
  mro : List Nat := []
  base_mro : List Nat := []
  children : Option (List Nat) := none
  is_trait : Bool := false
  inherits_python : Bool := false
  allow_interpreted_subclasses : Bool := false
  builtin_base : Option AttrName := none
  is_serializable : Bool := false
  deletable : List AttrName := []
  init : Option FuncIR := none
  _always_initialized_attrs : Finset AttrName := ∅
  _sometimes_initialized_attrs : Finset AttrName := ∅
  init_self_leak : Bool := false
  bitmap_attrs : List AttrName := []
deriving DecidableEq

/-- The default class descriptor is inert: it is a trait with an unknown
subclass set, so no pass touches it.  It stands for out-of-range lookups. -/
instance : Inhabited ClassIR where
  default := { is_trait := true }

/-- A compilation unit: the list of class descriptors, in `class_irs` order. -/
abbrev CompUnit := List ClassIR

/-- Look up a class by index (out of range yields the inert default). -/
def getCl (env : CompUnit) (i : Nat) : ClassIR := env.getD i default

/-- Whether the class treats attribute `a` as always defined.  Modelled from
the spec: membership in the computed always-initialized result set. -/
def ClassIR.is_always_defined (cl : ClassIR) (a : AttrName) : Bool :=
  decide (a ∈ cl._always_initialized_attrs)

/-- Whether attribute `a` of the class may be deleted by user code.
Modelled from the spec: membership in `deletable_attrs`. -/
def ClassIR.is_deletable (cl : ClassIR) (a : AttrName) : Bool :=
  decide (a ∈ cl.deletable)

/-- Gen and kill sets of one op, as returned by an analysis visitor
(source: `GenAndKill`). -/
abbrev GenAndKill (α : Type) := Finset α × Finset α

/-- Result of a dataflow pass: the set before and after every
(block index, op index) program point.  Modelled from the spec, section 3
"Analysis result". -/
structure AnalysisResult (α : Type) where
  before : Nat → Nat → Finset α
  after : Nat → Nat → Finset α

/-- Forward transfer of one op: remove the kill set, then add the gen set.
Modelled from the spec, section 4.2: gen/kill dataflow. -/
def dfTransfer [DecidableEq α] (gk : GenAndKill α) (s : Finset α) : Finset α :=
  (s \ gk.2) ∪ gk.1

/-- State after executing a list of ops starting from a given entry state. -/
def dfBlockOut [DecidableEq α] (visit : Op → GenAndKill α) (entry : Finset α)
    (ops : List Op) : Finset α :=
  ops.foldl (fun s op => dfTransfer (visit op) s) entry

/-- Successor blocks of a basic block: the targets of its terminator, which
is its last op.  Modelled from the spec: the CFG construction service. -/
def blockSuccs (ops : List Op) : List Nat :=
  match ops.getLast? with
  | some op => op.targets
  | none => []

/-- One round of the forward "maybe" fixpoint: each block's entry state is
the initial set (entry block only) joined with the out-states of all its
predecessors.  Modelled from the spec, section 6: forward direction, union
at merge points. -/
def dfStep [DecidableEq α] (visit : Op → GenAndKill α) (blocks : List (List Op))
    (initial : Finset α) (inv : List (Finset α)) : List (Finset α) :=
  (List.range blocks.length).map (fun b =>
    (List.range blocks.length).foldl
      (fun acc p =>
        if b ∈ blockSuccs (blocks.getD p []) then
          acc ∪ dfBlockOut visit (inv.getD p ∅) (blocks.getD p [])
        else acc)
      (if b = 0 then initial else ∅))

/-- Iterate the fixpoint step a given number of rounds. -/
def dfIter [DecidableEq α] (visit : Op → GenAndKill α) (blocks : List (List Op))
    (initial : Finset α) : Nat → List (Finset α) → List (Finset α)
  | 0, inv => inv
  | n + 1, inv => dfIter visit blocks initial n (dfStep visit blocks initial inv)

/-- Starting state of the fixpoint: the initial set at the entry block,
the empty set elsewhere. -/
def dfStart [DecidableEq α] (blocks : List (List Op)) (initial : Finset α) :
    List (Finset α) :=
  (List.range blocks.length).map (fun b => if b = 0 then initial else ∅)

/-- All values that the initial set or any gen set can contribute; every
state of the fixpoint stays inside this set. -/
def dfUniverse [DecidableEq α] (visit : Op → GenAndKill α) (blocks : List (List Op))
    (initial : Finset α) : Finset α :=
  blocks.foldl (fun s ops => ops.foldl (fun s op => s ∪ (visit op).1) s) initial

/-- Rounds after which the monotone fixpoint iteration has surely
stabilized. -/
def dfFuel [DecidableEq α] (visit : Op → GenAndKill α) (blocks : List (List Op))
    (initial : Finset α) : Nat :=
  blocks.length * (dfUniverse visit blocks initial).card + blocks.length + 1

/-- Run a forward "maybe" dataflow analysis to a stable result and expose
the per-op before/after sets.  Modelled from the spec, section 6
(`mypyc/analysis/dataflow.py` is not part of the sources): forward
direction, union at merges, fixpoint iteration from the initial value. -/
def run_analysis [DecidableEq α] (visit : Op → GenAndKill α) (blocks : List (List Op))
    (initial : Finset α) : AnalysisResult α :=
  let inv := dfIter visit blocks initial (dfFuel visit blocks initial) (dfStart blocks initial)
  { before := fun b i => dfBlockOut visit (inv.getD b ∅) ((blocks.getD b []).take i)
    after := fun b i => dfBlockOut visit (inv.getD b ∅) ((blocks.getD b []).take (i + 1)) }

/-- Truth value of a fact of the self-leak analysis, whose element type is
the unit type: the set is "true" when nonempty. -/
def dirtyAt (s : Finset Unit) : Bool := decide (() ∈ s)

/-- Attributes that are always initialized by a `super().__init__` call of
class `callee` (source: `attributes_initialized_by_init_call`): every
attribute declared by a class of the callee's MRO that its declaring class
reports always defined. -/
def attributes_initialized_by_init_call (env : CompUnit) (callee : Nat) : Finset AttrName :=
  (getCl env callee).mro.foldl
    (fun s b =>
      ((getCl env b).attributes).foldl
        (fun s p => if (getCl env b).is_always_defined p.1 then insert p.1 s else s) s)
    ∅

/-- Attributes that may be initialized by a `super().__init__` call of class
`callee` (source: `attributes_maybe_initialized_by_init_call`). -/
def attributes_maybe_initialized_by_init_call (env : CompUnit) (callee : Nat) :
    Finset AttrName :=
  attributes_initialized_by_init_call env callee
    ∪ (getCl env callee)._sometimes_initialized_attrs

/-- Gen/kill sets of the maybe-defined pass (source:
`AttributeMaybeDefinedVisitor`): a write to a receiver attribute gens the
attribute name; a recognized `__init__` call gens everything the callee may
initialize; nothing is ever killed. -/
def attributeMaybeDefinedVisitor (env : CompUnit) (self_reg : Nat) :
    Op → GenAndKill AttrName
  | .setAttr obj a => if obj = self_reg then ({a}, ∅) else (∅, ∅)
  | .callInit c => (attributes_maybe_initialized_by_init_call env c, ∅)
  | _ => (∅, ∅)

/-- Gen/kill sets of the maybe-undefined pass (source:
`AttributeMaybeUndefinedVisitor`): a write to a receiver attribute kills the
attribute name; a recognized `__init__` call kills everything the callee
always initializes; nothing is ever genned. -/
def attributeMaybeUndefinedVisitor (env : CompUnit) (self_reg : Nat) :
    Op → GenAndKill AttrName
  | .setAttr obj a => if obj = self_reg then (∅, {a}) else (∅, ∅)
  | .callInit c => (∅, attributes_initialized_by_init_call env c)
  | _ => (∅, ∅)

/-- Maybe-defined analysis of a constructor (source:
`analyze_maybe_defined_attrs_in_init`): starts from the attributes with
class body defaults. -/
def analyze_maybe_defined_attrs_in_init (env : CompUnit) (blocks : List (List Op))
    (self_reg : Nat) (attrs_with_defaults : Finset AttrName) : AnalysisResult AttrName :=
  run_analysis (attributeMaybeDefinedVisitor env self_reg) blocks attrs_with_defaults

/-- Maybe-undefined analysis of a constructor (source:
`analyze_maybe_undefined_attrs_in_init`): starts from every declared
attribute without a class body default. -/
def analyze_maybe_undefined_attrs_in_init (env : CompUnit) (blocks : List (List Op))
    (self_reg : Nat) (initial_undefined : Finset AttrName) : AnalysisResult AttrName :=
  run_analysis (attributeMaybeUndefinedVisitor env self_reg) blocks initial_undefined

/-- Gen/kill sets of the self-leak ("dirty") analysis.  Modelled from the
spec, section 4.1 (`mypyc/analysis/selfleaks.py` is not part of the
sources): an op is escape inducing iff it runs code not statically known to
avoid touching the receiver, that is, an arbitrary call that uses the
receiver; every return implicitly exposes the finished receiver to the
caller; receiver attribute reads and writes and recognized `__init__` calls
are clean. -/
def selfLeaksVisitor (_self_reg : Nat) : Op → GenAndKill Unit
  | .callOther usesSelf => if usesSelf then ({()}, ∅) else (∅, ∅)
  | .ret => ({()}, ∅)
  | _ => (∅, ∅)

/-- Self-leak analysis over a constructor body.  Modelled from the spec,
section 4.1: per program point, whether the receiver may have escaped. -/
def analyze_self_leaks (blocks : List (List Op)) (self_reg : Nat) : AnalysisResult Unit :=
  run_analysis (selfLeaksVisitor self_reg) blocks ∅

/-- Discard step for a receiver attribute read (source lines 208 to 211 of
`find_always_defined_attributes`): a read of a maybe undefined attribute
disqualifies it. -/
def discardByGet (self_reg : Nat) (maybe_undefined : AnalysisResult AttrName)
    (b i : Nat) (op : Op) (attrs : Finset AttrName) : Finset AttrName :=
  match op with
  | .getAttr obj a =>
    if obj = self_reg ∧ a ∈ maybe_undefined.before b i then attrs.erase a else attrs
  | _ => attrs

/-- Discard step for a receiver attribute write (source lines 212 to 221 of
`find_always_defined_attributes`): a write while both maybe defined and
maybe undefined disqualifies the attribute. -/
def discardBySet (self_reg : Nat)
    (maybe_defined maybe_undefined : AnalysisResult AttrName)
    (b i : Nat) (op : Op) (attrs : Finset AttrName) : Finset AttrName :=
  match op with
  | .setAttr obj a =>
    if obj = self_reg ∧ a ∈ maybe_undefined.before b i ∧ a ∈ maybe_defined.before b i
    then attrs.erase a else attrs
  | _ => attrs

/-- Scan the ops of one basic block for the always-defined computation
(source: the inner loop of `find_always_defined_attributes`): discard
attributes read while maybe undefined, discard attributes written while
both maybe defined and maybe undefined, intersect with what is surely
defined at a dirty transition and stop scanning the block there, and apply
the same intersection over control edges into already dirty blocks. -/
def findAlwaysInBlock (self_reg : Nat)
    (maybe_defined maybe_undefined : AnalysisResult AttrName)
    (dirty : AnalysisResult Unit) (b : Nat) :
    List Op → Nat → Finset AttrName → Finset AttrName
  | [], _, attrs => attrs
  | op :: rest, i, attrs =>
    let attrs := discardByGet self_reg maybe_undefined b i op attrs
    let attrs := discardBySet self_reg maybe_defined maybe_undefined b i op attrs
    if dirtyAt (dirty.after b i) then
      if ¬ dirtyAt (dirty.before b i) then
        attrs ∩ (maybe_defined.after b i \ maybe_undefined.after b i)
      else attrs
    else
      let attrs := op.targets.foldl
        (fun attrs t =>
          if ¬ dirtyAt (dirty.after b i) ∧ dirtyAt (dirty.before t 0) then
            attrs ∩ (maybe_defined.after t 0 \ maybe_undefined.after t 0)
          else attrs)
        attrs
      findAlwaysInBlock self_reg maybe_defined maybe_undefined dirty b rest (i + 1) attrs

/-- Walk the blocks starting at block index `b` (helper for
`find_always_defined_attributes`). -/
def findAlwaysGo (self_reg : Nat)
    (maybe_defined maybe_undefined : AnalysisResult AttrName)
    (dirty : AnalysisResult Unit) :
    List (List Op) → Nat → Finset AttrName → Finset AttrName
  | [], _, attrs => attrs
  | ops :: rest, b, attrs =>
    findAlwaysGo self_reg maybe_defined maybe_undefined dirty rest (b + 1)
      (findAlwaysInBlock self_reg maybe_defined maybe_undefined dirty b ops 0 attrs)

/-- Find attributes that are always initialized (source:
`find_always_defined_attributes`): start from all attributes of the MRO and
remove everything the scan disqualifies. -/
def find_always_defined_attributes (blocks : List (List Op)) (self_reg : Nat)
    (all_attrs : Finset AttrName)
    (maybe_defined maybe_undefined : AnalysisResult AttrName)
    (dirty : AnalysisResult Unit) : Finset AttrName :=
  findAlwaysGo self_reg maybe_defined maybe_undefined dirty blocks 0 all_attrs

/-- Scan the ops of one basic block for the sometimes-defined computation
(source: the inner loop of `find_sometimes_defined_attributes`): union the
maybe-defined facts at exactly the dirty transition points considered by the
always-defined scan. -/
def findSometimesInBlock (maybe_defined : AnalysisResult AttrName)
    (dirty : AnalysisResult Unit) (b : Nat) :
    List Op → Nat → Finset AttrName → Finset AttrName
  | [], _, attrs => attrs
  | op :: rest, i, attrs =>
    if dirtyAt (dirty.after b i) then
      if ¬ dirtyAt (dirty.before b i) then attrs ∪ maybe_defined.after b i else attrs
    else
      let attrs := op.targets.foldl
        (fun attrs t =>
          if ¬ dirtyAt (dirty.after b i) ∧ dirtyAt (dirty.before t 0) then
            attrs ∪ maybe_defined.after t 0
          else attrs)
        attrs
      findSometimesInBlock maybe_defined dirty b rest (i + 1) attrs

/-- Walk the blocks starting at block index `b` (helper for
`find_sometimes_defined_attributes`). -/
def findSometimesGo (maybe_defined : AnalysisResult AttrName)
    (dirty : AnalysisResult Unit) :
    List (List Op) → Nat → Finset AttrName → Finset AttrName
  | [], _, attrs => attrs
  | ops :: rest, b, attrs =>
    findSometimesGo maybe_defined dirty rest (b + 1)
      (findSometimesInBlock maybe_defined dirty b ops 0 attrs)

/-- Find attributes that are sometimes initialized (source:
`find_sometimes_defined_attributes`). -/
def find_sometimes_defined_attributes (blocks : List (List Op)) (_self_reg : Nat)
    (maybe_defined : AnalysisResult AttrName) (dirty : AnalysisResult Unit) :
    Finset AttrName :=
  findSometimesGo maybe_defined dirty blocks 0 ∅

/-- Marking decision for one op (source: the body of the inner loop of
`mark_attr_initialization_ops`).  The source sets a flag on the op object;
here the set of marked (block, op index) positions is accumulated
instead. -/
def markStep (self_reg : Nat) (maybe_defined : AnalysisResult AttrName)
    (dirty : AnalysisResult Unit) (b i : Nat) (op : Op) (acc : Finset (Nat × Nat)) :
    Finset (Nat × Nat) :=
  match op with
  | .setAttr obj a =>
    if obj = self_reg ∧ a ∉ maybe_defined.before b i ∧ ¬ dirtyAt (dirty.after b i)
    then insert (b, i) acc else acc
  | _ => acc

/-- Scan one block for attribute writes to tag as initializing (source:
the inner loop of `mark_attr_initialization_ops`). -/
def markInBlock (self_reg : Nat) (maybe_defined : AnalysisResult AttrName)
    (dirty : AnalysisResult Unit) (b : Nat) :
    List Op → Nat → Finset (Nat × Nat) → Finset (Nat × Nat)
  | [], _, acc => acc
  | op :: rest, i, acc =>
    markInBlock self_reg maybe_defined dirty b rest (i + 1)
      (markStep self_reg maybe_defined dirty b i op acc)

/-- Walk the blocks starting at block index `b` (helper for
`mark_attr_initialization_ops`). -/
def markGo (self_reg : Nat) (maybe_defined : AnalysisResult AttrName)
    (dirty : AnalysisResult Unit) :
    List (List Op) → Nat → Finset (Nat × Nat) → Finset (Nat × Nat)
  | [], _, acc => acc
  | ops :: rest, b, acc =>
    markGo self_reg maybe_defined dirty rest (b + 1)
      (markInBlock self_reg maybe_defined dirty b ops 0 acc)

/-- Positions of the receiver attribute writes that are tagged as
initializing writes (source: `mark_attr_initialization_ops`): writes whose
attribute is not maybe defined before the op and that are not past a dirty
point. -/
def mark_attr_initialization_ops (blocks : List (List Op)) (self_reg : Nat)
    (maybe_defined : AnalysisResult AttrName) (dirty : AnalysisResult Unit) :
    Finset (Nat × Nat) :=
  markGo self_reg maybe_defined dirty blocks 0 ∅

/-- Whether the scan of one block (starting at op index `i`) meets a freeze
event: a dirty transition at an op, or a control edge into an already dirty
block.  These are exactly the points where `findAlwaysInBlock` intersects
and `findSometimesInBlock` unions. -/
def hasFreezeEventInBlock (dirty : AnalysisResult Unit) (b : Nat) :
    List Op → Nat → Bool
  | [], _ => false
  | op :: rest, i =>
    if dirtyAt (dirty.after b i) then !(dirtyAt (dirty.before b i))
    else
      (op.targets.any fun t => !(dirtyAt (dirty.after b i)) && dirtyAt (dirty.before t 0))
        || hasFreezeEventInBlock dirty b rest (i + 1)

/-- Whether any block from index `b` on meets a freeze event. -/
def hasFreezeEventGo (dirty : AnalysisResult Unit) : List (List Op) → Nat → Bool
  | [], _ => false
  | ops :: rest, b =>
    hasFreezeEventInBlock dirty b ops 0 || hasFreezeEventGo dirty rest (b + 1)

/-- Whether the constructor body has at least one freeze event for the
given dirty result; this holds in particular whenever some reachable op
leaks the receiver or returns. -/
def hasFreezeEvent (dirty : AnalysisResult Unit) (blocks : List (List Op)) : Bool :=
  hasFreezeEventGo dirty blocks 0

/-- All attributes declared anywhere in the MRO of the class (source: the
`all_attrs` accumulation in `analyze_always_defined_attrs_in_class`). -/
def allAttrs (env : CompUnit) (cid : Nat) : Finset AttrName :=
  (getCl env cid).mro.foldl
    (fun s b => ((getCl env b).attributes).foldl (fun s p => insert p.1 s) s) ∅

/-- Whether any op is past a dirty point and is not a return (source: the
`any_dirty` loop at the end of `analyze_always_defined_attrs_in_class`). -/
def anyDirtyNonReturn (dirty : AnalysisResult Unit) : List (List Op) → Nat → Bool
  | [], _ => false
  | ops :: rest, b =>
    (List.range ops.length).any (fun i =>
      dirtyAt (dirty.after b i) && !(ops.getD i .unreachable).isReturn)
    || anyDirtyNonReturn dirty rest (b + 1)

/-- Result descriptor of analyzing the constructor `m` of class `cid`: the
body of the constructor branch of `analyze_always_defined_attrs_in_class`
(source lines 154 to 188): run the self-leak, maybe-defined and
maybe-undefined analyses, combine them into the always and sometimes sets,
filter the deletable attributes out of the always set, and record whether
any non-return op is past a dirty point. -/
def analyzedClass (env : CompUnit) (cid : Nat) (m : FuncIR) : ClassIR :=
  let cl := getCl env cid
  let self_reg := m.arg_regs.getD 0 0
  let dirty := analyze_self_leaks m.blocks self_reg
  let maybe_defined :=
    analyze_maybe_defined_attrs_in_init env m.blocks self_reg cl.attrs_with_defaults
  let all_attrs := allAttrs env cid
  let maybe_undefined := analyze_maybe_undefined_attrs_in_init env m.blocks self_reg
    (all_attrs \ cl.attrs_with_defaults)
  let always_defined := find_always_defined_attributes m.blocks self_reg all_attrs
    maybe_defined maybe_undefined dirty
  let always_defined := always_defined.filter (fun a => cl.is_deletable a = false)
  let sometimes := find_sometimes_defined_attributes m.blocks self_reg
    maybe_defined dirty
  let any_dirty := anyDirtyNonReturn dirty m.blocks 0
  { cl with
    _always_initialized_attrs := always_defined
    _sometimes_initialized_attrs := sometimes
    init_self_leak := any_dirty }

/-- Result descriptor for a class without an explicit constructor (source
lines 150 to 153): both result sets are `attrs_with_defaults`. -/
def analyzedClassNoInit (env : CompUnit) (cid : Nat) : ClassIR :=
  let cl := getCl env cid
  { cl with
    _always_initialized_attrs := cl.attrs_with_defaults
    _sometimes_initialized_attrs := cl.attrs_with_defaults }

/-- Analyze one class, bases before derived, memoized through `seen`
(source: `analyze_always_defined_attrs_in_class`).  The recursion over the
MRO is fuel bounded; fuel zero leaves the state unchanged. -/
def analyze_always_defined_attrs_in_class :
    Nat → Nat → CompUnit × Finset Nat → CompUnit × Finset Nat
  | 0, _, st => st
  | fuel + 1, cid, (env, seen) =>
    if cid ∈ seen then (env, seen)
    else
      let seen := insert cid seen
      let cl := getCl env cid
      if cl.is_trait || cl.inherits_python || cl.allow_interpreted_subclasses
          || cl.builtin_base.isSome || cl.children.isNone || cl.is_serializable then
        (env, seen)
      else
        let st := cl.mro.tail.foldl
          (fun st b => analyze_always_defined_attrs_in_class fuel b st) (env, seen)
        let env := st.1
        let seen := st.2
        match (getCl env cid).init with
        | none => (env.set cid (analyzedClassNoInit env cid), seen)
        | some m => (env.set cid (analyzedClass env cid m), seen)

/-- Result descriptor of the subclass propagation write (source lines 406
to 412): remove from the always set every attribute of the pre-loop
snapshot that some child's always set does not contain.  `envSnap` is the
environment in which the snapshot was taken, `env2` the environment after
the child updates. -/
def subclassUpdatedClass (envSnap env2 : CompUnit) (cid : Nat) (cs : List Nat) : ClassIR :=
  let snapshot := (getCl envSnap cid)._always_initialized_attrs
  let removed := snapshot.filter
    (fun a =>
      cs.any (fun child =>
        decide (a ∉ (getCl env2 child)._always_initialized_attrs)) = true)
  let cl := getCl env2 cid
  { cl with _always_initialized_attrs := cl._always_initialized_attrs \ removed }

/-- Remove attributes that are not always defined in all subclasses
(source: `update_always_defined_attrs_using_subclasses`).  The recursion
into children is fuel bounded; fuel exhaustion yields `none`.  The source
interleaves the recursive child updates with the membership checks while
iterating over the attribute set; since a child's result set is stable as
soon as that child's own update has run, this equals running the child
updates once (only when the attribute set is nonempty, as the source loops
over that set) and then filtering against the updated children, which is
how it is written here. -/
def update_always_defined_attrs_using_subclasses :
    Nat → Nat → CompUnit × Finset Nat → Option (CompUnit × Finset Nat)
  | 0, _, _ => none
  | fuel + 1, cid, (env, seen) =>
    if cid ∈ seen then some (env, seen)
    else
      match (getCl env cid).children with
      | none => some (env, seen)
      | some cs =>
        let loop :=
          if ((getCl env cid)._always_initialized_attrs).card = 0 then some (env, seen)
          else
            cs.foldl
              (fun acc child =>
                acc.bind (fun st2 =>
                  update_always_defined_attrs_using_subclasses fuel child st2))
              (some (env, seen))
        match loop with
        | none => none
        | some st =>
          some (st.1.set cid (subclassUpdatedClass env st.1 cid cs), insert cid st.2)

/-- Bitmap inheritance step (source lines 426 to 427 of
`detect_undefined_bitmap`): when the class has a primary base on
`base_mro`, extend its bitmap list with the base's list. -/
def bitmapExtendBase (env : CompUnit) (cid : Nat) : CompUnit :=
  let cl := getCl env cid
  if 1 < cl.base_mro.length then
    env.set cid { cl with bitmap_attrs :=
      cl.bitmap_attrs ++ (getCl env (cl.base_mro.getD 1 0)).bitmap_attrs }
  else env

/-- Own attribute step (source lines 428 to 430): append each directly
declared attribute whose representation overlaps the error value and which
is not always defined. -/
def bitmapAddOwn (env : CompUnit) (cid : Nat) : CompUnit :=
  let cl2 := getCl env cid
  let ownBm := cl2.attributes.foldl
    (fun bm p =>
      if p.2.error_overlap && !cl2.is_always_defined p.1 then bm ++ [p.1] else bm)
    cl2.bitmap_attrs
  env.set cid { cl2 with bitmap_attrs := ownBm }

/-- Trait attribute step (source lines 432 to 436): for one MRO entry that
is a trait, append its error overlapping, not always defined attributes
that are not yet in the bitmap list. -/
def bitmapTraitStep (cid : Nat) (env : CompUnit) (b : Nat) : CompUnit :=
  let base := getCl env b
  if base.is_trait then
    let cl3 := getCl env cid
    let traitBm := base.attributes.foldl
      (fun bm p =>
        if p.2.error_overlap && !cl3.is_always_defined p.1 && !(bm.contains p.1)
        then bm ++ [p.1] else bm)
      cl3.bitmap_attrs
    env.set cid { cl3 with bitmap_attrs := traitBm }
  else env

/-- The non-recursive tail of `detect_undefined_bitmap` (source lines 426
to 436): bitmap inheritance, own attributes, then the trait loop. -/
def detectBody (env : CompUnit) (cid : Nat) : CompUnit :=
  let env := bitmapExtendBase env cid
  let cl2 := getCl env cid
  let env := bitmapAddOwn env cid
  cl2.mro.tail.foldl (bitmapTraitStep cid) env

/-- Bitmap slot allocation (source: `detect_undefined_bitmap`), translated
faithfully: in particular the loop over `base_mro[1:]` recurses on `cl`
itself, not on the loop variable `base`, exactly as the source does. -/
def detect_undefined_bitmap : Nat → Nat → CompUnit × Finset Nat → CompUnit × Finset Nat
  | 0, _, st => st
  | fuel + 1, cid, (env, seen) =>
    if (getCl env cid).is_trait then (env, seen)
    else if cid ∈ seen then (env, seen)
    else
      let seen := insert cid seen
      let st := (getCl env cid).base_mro.tail.foldl
        (fun st _b => detect_undefined_bitmap fuel cid st) (env, seen)
      (detectBody st.1 cid, st.2)

/-- Run the three passes over the whole compilation unit (source:
`analyze_always_defined_attrs`): the single class resolver, the subclass
propagation and the bitmap allocation, each over the classes in list
order with a fresh `seen` set. -/
def analyze_always_defined_attrs (env : CompUnit) : Option CompUnit :=
  let n := env.length
  let st1 := (List.range n).foldl
    (fun st cid => analyze_always_defined_attrs_in_class (n + 1) cid st)
    (env, (∅ : Finset Nat))
  match (List.range n).foldl
      (fun acc cid =>
        acc.bind (fun st => update_always_defined_attrs_using_subclasses (n + 1) cid st))
      (some (st1.1, (∅ : Finset Nat))) with
  | none => none
  | some st2 =>
    let st3 := (List.range n).foldl
      (fun st cid => detect_undefined_bitmap (n + 1) cid st)
      (st2.1, (∅ : Finset Nat))
    some st3.1

/-- Total wrapper around the pipeline: run the three passes and return the
input unchanged in the never observed case of fuel exhaustion. -/
def analyzeAll (env : CompUnit) : CompUnit :=
  (analyze_always_defined_attrs env).getD env

/-- The op stored at a (block index, op index) position. -/
def opAt (blocks : List (List Op)) (b i : Nat) : Option Op :=
  (blocks.getD b []).get? i

/-- One step of reachability: add the successors of every block of the set. -/
def reachExpand (blocks : List (List Op)) (s : Finset Nat) : Finset Nat :=
  s ∪ s.biUnion (fun b => (blockSuccs (blocks.getD b [])).toFinset)

/-- Iterated reachability expansion. -/
def reachIter (blocks : List (List Op)) : Nat → Finset Nat → Finset Nat
  | 0, s => s
  | n + 1, s => reachExpand blocks (reachIter blocks n s)

/-- Blocks reachable from the entry block along CFG edges. -/
def reachableBlocks (blocks : List (List Op)) : Finset Nat :=
  reachIter blocks blocks.length {0}

/-- Constructor of worked example 1: write `x`, then on one branch write
`y`, on the other write `y` and then `z`. -/
def exampleC3init : FuncIR :=
  ⟨[0], [[.setAttr 0 "x", .branch 1 2],
         [.setAttr 0 "y", .goto 3],
         [.setAttr 0 "y", .setAttr 0 "z", .goto 3],
         [.ret]]⟩

/-- Worked example 1 of the spec as a one class unit. -/
def exampleC3 : CompUnit := [
  { attributes := [("x", ⟨false⟩), ("y", ⟨false⟩), ("z", ⟨false⟩)]
    mro := [0]
    base_mro := [0]
    children := some []
    init := some exampleC3init }]

/-- Constructor of worked example 2: call an ordinary method on the
receiver (an escape) and then write `x` with its result. -/
def exampleC5init : FuncIR := ⟨[0], [[.callOther true, .setAttr 0 "x", .ret]]⟩

/-- Worked example 2 of the spec as a one class unit. -/
def exampleC5 : CompUnit := [
  { attributes := [("x", ⟨false⟩)]
    mro := [0]
    base_mro := [0]
    children := some []
    init := some exampleC5init }]

/-- A base class `B` (index 1) declaring an error-overlapping attribute `a`
with no constructor, and a derived class `D` (index 0) with no attributes of
its own; the derived class is listed before its base. -/
def exampleC1 : CompUnit := [
  { attributes := []
    mro := [0, 1]
    base_mro := [0, 1]
    children := some []
    init := none },
  { attributes := [("a", ⟨true⟩)]
    mro := [1]
    base_mro := [1]
    children := some [0]
    init := none }]

/-- A class whose constructor never exits: its body is an infinite loop,
so the self-leak analysis never reports a dirty point. -/
def exampleC2 : CompUnit := [
  { attributes := [("x", ⟨false⟩)]
    mro := [0]
    base_mro := [0]
    children := some []
    init := some ⟨[0], [[.goto 1], [.goto 1]]⟩ }]

/-- Constructor that writes `x` and returns: its only escape point is the
return op. -/
def exampleC6init : FuncIR := ⟨[0], [[.setAttr 0 "x", .ret]]⟩

/-- A class whose constructor's only escape point is its return op. -/
def exampleC6 : CompUnit := [
  { attributes := [("x", ⟨false⟩)]
    mro := [0]
    base_mro := [0]
    children := some []
    init := some exampleC6init }]

/-- A class `A` (index 0) with a class body default for `x` and no
constructor, and a subclass `B` (index 1) of it with no default and no
constructor of its own. -/
def exampleC7 : CompUnit := [
  { attributes := [("x", ⟨false⟩)]
    attrs_with_defaults := {"x"}
    mro := [0]
    base_mro := [0]
    children := some [1]
    init := none },
  { attributes := []
    mro := [1, 0]
    base_mro := [1, 0]
    children := some []
    init := none }]

/-- A class with a deletable attribute `x` that also has a class body
default, and no constructor. -/
def exampleC9 : CompUnit := [
  { attributes := [("x", ⟨false⟩)]
    attrs_with_defaults := {"x"}
    deletable := ["x"]
    mro := [0]
    base_mro := [0]
    children := some []
    init := none }]

/-- Constructor blocks with an unreachable second block that writes `x`. -/
def exampleC10blocks : List (List Op) := [[.ret], [.setAttr 0 "x", .ret]]

/-! The theorems below settle the specification claims. -/

def sameStatics (x y : ClassIR) : Prop :=
  x.children = y.children ∧ x.attrs_with_defaults = y.attrs_with_defaults
    ∧ x.deletable = y.deletable

def C9Inv (cid : Nat) (d : List AttrName) (w : Finset AttrName) (env : CompUnit) : Prop :=
  (getCl env cid).deletable = d ∧ (getCl env cid).attrs_with_defaults = w
    ∧ ∀ a ∈ (getCl env cid)._always_initialized_attrs, a ∉ d

def resultFrame (env1 env2 : CompUnit) : Prop :=
  ∀ k, sameStatics (getCl env2 k) (getCl env1 k)
    ∧ (getCl env2 k)._always_initialized_attrs = (getCl env1 k)._always_initialized_attrs
    ∧ (getCl env2 k)._sometimes_initialized_attrs
        = (getCl env1 k)._sometimes_initialized_attrs

/-- A class whose constructor writes `x` and whose attribute `y` is
deletable: input for the C9 witness. -/
def exampleC9b : CompUnit := [
  { attributes := [("x", ⟨false⟩), ("y", ⟨false⟩)]
    deletable := ["y"]
    mro := [0]
    base_mro := [0]
    children := some []
    init := some exampleC6init }]

def staticsFrame (env1 env2 : CompUnit) : Prop :=
  ∀ k, sameStatics (getCl env2 k) (getCl env1 k)

def kidRel (kids : Nat → Option (List Nat)) (p q : Nat) : Prop :=
  ∃ cs, kids p = some cs ∧ q ∈ cs

def C4Inv (kids : Nat → Option (List Nat)) (st : CompUnit × Finset Nat) : Prop :=
  ∀ c ∈ st.2, ∀ cs, kids c = some cs →
    ∀ ch ∈ cs,
      (getCl st.1 c)._always_initialized_attrs
          ⊆ (getCl st.1 ch)._always_initialized_attrs
        ∧ ((getCl st.1 c)._always_initialized_attrs = ∅ ∨ ch ∈ st.2 ∨ kids ch = none)

structure Evolves (kids : Nat → Option (List Nat)) (R : Nat → Prop)
    (st st2 : CompUnit × Finset Nat) : Prop where
  kidsPres : ∀ k, (getCl st2.1 k).children = kids k
  lenEq : st2.1.length = st.1.length
  seenMono : st.2 ⊆ st2.2
  unseenFrozen : ∀ k, k ∉ st2.2 → getCl st2.1 k = getCl st.1 k
  newSeen : ∀ k ∈ st2.2, k ∈ st.2 ∨ R k
  inv : C4Inv kids st2

def rankOk (env : CompUnit) (rank : Nat → Nat) : Prop :=
  ∀ p ∈ List.range env.length,
    ∀ c2 ∈ ((getCl env p).children.getD []), rank c2 < rank p

instance (env : CompUnit) (rank : Nat → Nat) : Decidable (rankOk env rank) :=
  inferInstanceAs (Decidable (∀ p ∈ List.range env.length,
    ∀ c2 ∈ ((getCl env p).children.getD []), rank c2 < rank p))

/-- C1: the source of `detect_undefined_bitmap` recurses on `cl` instead of
the loop variable `base`, so base classes are not processed before derived
classes.  Evaluated at a unit that lists a derived class before its base
(the base declaring one error-overlapping, not always defined attribute
`a`): the pass completes, the base ends with bitmap list `["a"]`, yet the
derived class's list is empty, so the derived list truncated to the base's
length does not equal the base's list.  This contradicts the claim. -/
theorem C1_bitmap_extension_violated :
    (analyze_always_defined_attrs exampleC1).isSome = true
    ∧ (getCl exampleC1 0).base_mro.getD 1 0 = 1
    ∧ (getCl (analyzeAll exampleC1) 1).bitmap_attrs = ["a"]
    ∧ (getCl (analyzeAll exampleC1) 0).bitmap_attrs = []
    ∧ ¬ ((getCl (analyzeAll exampleC1) 0).bitmap_attrs.take
            ((getCl (analyzeAll exampleC1) 1).bitmap_attrs.length)
          = (getCl (analyzeAll exampleC1) 1).bitmap_attrs) :=
  ⟨by decide, by decide, by decide, by decide, by decide⟩

/-- C2 counterexample: a class whose constructor is an infinite loop has no
dirty transition point, so the pass leaves `_sometimes_initialized_attrs`
empty while `_always_initialized_attrs` keeps the declared attribute; after
the full pipeline the subset inclusion claimed by the spec fails. -/
theorem C2_subset_invariant_cex :
    (analyze_always_defined_attrs exampleC2).isSome = true
    ∧ ¬ ((getCl (analyzeAll exampleC2) 0)._always_initialized_attrs
          ⊆ (getCl (analyzeAll exampleC2) 0)._sometimes_initialized_attrs) :=
  ⟨by decide, by decide⟩

/-- C3: worked example 1 -- the constructor writes `x` unconditionally and
then, under a condition, either `y` or `y` followed by `z`.  After the full
pipeline the always set is `{x, y}`, the attribute `z` is excluded from it,
and the sometimes set is `{x, y, z}`. -/
theorem C3_worked_example_straight_line_branch :
    (analyze_always_defined_attrs exampleC3).isSome = true
    ∧ (getCl (analyzeAll exampleC3) 0)._always_initialized_attrs = {"x", "y"}
    ∧ "z" ∉ (getCl (analyzeAll exampleC3) 0)._always_initialized_attrs
    ∧ (getCl (analyzeAll exampleC3) 0)._sometimes_initialized_attrs = {"x", "y", "z"} :=
  ⟨by decide, by apply Finset.Subset.antisymm <;> decide, by decide,
    by apply Finset.Subset.antisymm <;> decide⟩

/-- C5: worked example 2 -- the constructor's only statement sequence calls
an ordinary (escape inducing) method on the receiver and then writes `x`.
After the full pipeline `x` is excluded from the always set (the freeze at
the escape transition discards the later write), and the constructor is
recorded as leaking the receiver. -/
theorem C5_escape_freeze_excludes_write :
    (analyze_always_defined_attrs exampleC5).isSome = true
    ∧ "x" ∉ (getCl (analyzeAll exampleC5) 0)._always_initialized_attrs
    ∧ (getCl (analyzeAll exampleC5) 0)._always_initialized_attrs = ∅
    ∧ (getCl (analyzeAll exampleC5) 0).init_self_leak = true :=
  ⟨by decide, by decide, by apply Finset.Subset.antisymm <;> decide, by decide⟩

/-- C7 counterexample: a class with a class body default `x`, no
constructor and one subclass that neither defaults nor guarantees `x`; the
subclass propagation pass removes `x` from the base's always set, so after
the full analysis the base's always set does not equal
`attrs_with_defaults`. -/
theorem C7_no_init_class_cex :
    (getCl exampleC7 0).init = none
    ∧ "x" ∈ (getCl exampleC7 0).attrs_with_defaults
    ∧ "x" ∉ (getCl (analyzeAll exampleC7) 0)._always_initialized_attrs
    ∧ ¬ ((getCl (analyzeAll exampleC7) 0)._always_initialized_attrs
          = (getCl exampleC7 0).attrs_with_defaults) :=
  ⟨by decide, by decide, by decide,
    fun h => absurd (h ▸ (by decide : "x" ∈ (getCl exampleC7 0).attrs_with_defaults))
      (by decide)⟩

/-- C9 counterexample: a class without a constructor whose deletable
attribute `x` carries a class body default; the no-constructor branch of
the resolver copies `attrs_with_defaults` into the always set without the
deletable filter, so the deletable attribute ends up always defined. -/
theorem C9_deletable_in_always_cex :
    (analyze_always_defined_attrs exampleC9).isSome = true
    ∧ "x" ∈ (getCl exampleC9 0).deletable
    ∧ "x" ∈ (getCl (analyzeAll exampleC9) 0)._always_initialized_attrs :=
  ⟨by decide, by decide, by decide⟩

/-- C10 counterexample: in a block list with an unreachable block that
writes the defaulted attribute `x`, the maybe-defined fact before that
write is empty (unreachable blocks get no flow from the entry), so
`mark_attr_initialization_ops` does tag the write at position (1, 0), even
though `x` has a class body default. -/
theorem C10_defaulted_write_marked_cex :
    opAt exampleC10blocks 1 0 = some (.setAttr 0 "x")
    ∧ "x" ∈ ({"x"} : Finset AttrName)
    ∧ 1 ∉ reachableBlocks exampleC10blocks
    ∧ (1, 0) ∈ mark_attr_initialization_ops exampleC10blocks 0
        (analyze_maybe_defined_attrs_in_init [] exampleC10blocks 0 {"x"})
        (analyze_self_leaks exampleC10blocks 0) :=
  ⟨by decide, by decide, by decide, by decide⟩

/-- C8 counterexample: for the write `self.x` the maybe-undefined visitor
returns an empty gen set -- not `{x}` as the claim says -- and `x` is
absent after pushing `{x}` through the op, i.e. the write removes the name
from the maybe-undefined set instead of adding it. -/
theorem C8_write_gen_cex :
    (attributeMaybeUndefinedVisitor [] 0 (.setAttr 0 "x")).1 ≠ {"x"}
    ∧ "x" ∉ dfTransfer (attributeMaybeUndefinedVisitor [] 0 (.setAttr 0 "x")) {"x"} :=
  ⟨by decide, by decide⟩

/-- C8 amended: in the maybe-undefined pass a receiver attribute write has
empty gen set and kill set `{name}` -- the name is removed from the
maybe-undefined set after the op -- and a recognized base constructor call
kills the callee's always defined attributes from the set. -/
theorem C8_undefined_visitor_kills (env : CompUnit) (self_reg : Nat) (a : AttrName)
    (c : Nat) (S : Finset AttrName) :
    attributeMaybeUndefinedVisitor env self_reg (.setAttr self_reg a) = (∅, {a})
    ∧ dfTransfer (attributeMaybeUndefinedVisitor env self_reg (.setAttr self_reg a)) S
        = S.erase a
    ∧ attributeMaybeUndefinedVisitor env self_reg (.callInit c)
        = (∅, attributes_initialized_by_init_call env c)
    ∧ dfTransfer (attributeMaybeUndefinedVisitor env self_reg (.callInit c)) S
        = S \ attributes_initialized_by_init_call env c := by
  refine ⟨by simp [attributeMaybeUndefinedVisitor], ?_, rfl, ?_⟩
  · simp [attributeMaybeUndefinedVisitor, dfTransfer, Finset.sdiff_singleton_eq_erase]
  · simp [attributeMaybeUndefinedVisitor, dfTransfer]

/-- A class already in `seen` is skipped by the resolver pass. -/
lemma analyzeInClass_skip (fuel b : Nat) (env : CompUnit) (seen : Finset Nat)
    (h : b ∈ seen) :
    analyze_always_defined_attrs_in_class fuel b (env, seen) = (env, seen) := by
  cases fuel with
  | zero => rfl
  | succ n => simp [analyze_always_defined_attrs_in_class, h]

/-- The recursion over a list of already seen base classes is a no-op. -/
lemma foldl_analyzeInClass_skip (fuel : Nat) (l : List Nat) (env : CompUnit)
    (seen : Finset Nat) (h : ∀ b ∈ l, b ∈ seen) :
    l.foldl (fun st b => analyze_always_defined_attrs_in_class fuel b st) (env, seen)
      = (env, seen) := by
  induction l with
  | nil => rfl
  | cons x xs ih =>
    simp only [List.foldl_cons]
    rw [analyzeInClass_skip fuel x env seen (h x (by simp))]
    exact ih (fun b hb => h b (by simp [hb]))

/-- Looking up the class just written. -/
lemma getCl_set_eq (env : CompUnit) (cid : Nat) (x : ClassIR) (h : cid < env.length) :
    getCl (env.set cid x) cid = x := by
  simp [getCl, List.getD, List.getElem?_set_eq_of_lt x h]

/-- Unfolding of the resolver for a class that is unseen, passes the flag
checks, has its bases already analyzed, and has a constructor. -/
lemma analyzeInClass_run (env : CompUnit) (seen : Finset Nat) (cid fuel : Nat) (m : FuncIR)
    (hseen : cid ∉ seen)
    (hflags : ((getCl env cid).is_trait || (getCl env cid).inherits_python
        || (getCl env cid).allow_interpreted_subclasses
        || (getCl env cid).builtin_base.isSome || (getCl env cid).children.isNone
        || (getCl env cid).is_serializable) = false)
    (hbases : ∀ b ∈ (getCl env cid).mro.tail, b ∈ insert cid seen)
    (hinit : (getCl env cid).init = some m) :
    analyze_always_defined_attrs_in_class (fuel + 1) cid (env, seen)
      = (env.set cid (analyzedClass env cid m), insert cid seen) := by
  rw [analyze_always_defined_attrs_in_class]
  rw [if_neg hseen]
  simp only [hflags, Bool.false_eq_true, if_false]
  rw [foldl_analyzeInClass_skip fuel _ env (insert cid seen) hbases]
  simp only [hinit]

/-- Unfolding of the resolver for an analyzable class without an explicit
constructor. -/
lemma analyzeInClass_run_noinit (env : CompUnit) (seen : Finset Nat) (cid fuel : Nat)
    (hseen : cid ∉ seen)
    (hflags : ((getCl env cid).is_trait || (getCl env cid).inherits_python
        || (getCl env cid).allow_interpreted_subclasses
        || (getCl env cid).builtin_base.isSome || (getCl env cid).children.isNone
        || (getCl env cid).is_serializable) = false)
    (hbases : ∀ b ∈ (getCl env cid).mro.tail, b ∈ insert cid seen)
    (hinit : (getCl env cid).init = none) :
    analyze_always_defined_attrs_in_class (fuel + 1) cid (env, seen)
      = (env.set cid (analyzedClassNoInit env cid), insert cid seen) := by
  rw [analyze_always_defined_attrs_in_class]
  rw [if_neg hseen]
  simp only [hflags, Bool.false_eq_true, if_false]
  rw [foldl_analyzeInClass_skip fuel _ env (insert cid seen) hbases]
  simp only [hinit]

/-- The leak check of the resolver holds iff some op has the dirty flag
after it and is not a return. -/
lemma anyDirtyNonReturn_iff (dirty : AnalysisResult Unit) (blocks : List (List Op))
    (b0 : Nat) :
    anyDirtyNonReturn dirty blocks b0 = true
      ↔ ∃ j i op, (blocks.getD j []).get? i = some op ∧ op.isReturn = false
          ∧ dirtyAt (dirty.after (b0 + j) i) = true := by
  induction blocks generalizing b0 with
  | nil =>
    simp only [anyDirtyNonReturn]
    constructor
    · intro h; exact absurd h (by simp)
    · rintro ⟨j, i, op, hop, -, -⟩
      simp [List.getD] at hop
  | cons ops rest ih =>
    simp only [anyDirtyNonReturn, Bool.or_eq_true, List.any_eq_true, List.mem_range]
    constructor
    · rintro (⟨i, hi, hcond⟩ | h)
      · rw [Bool.and_eq_true, Bool.not_eq_true'] at hcond
        refine ⟨0, i, ops.getD i .unreachable, ?_, hcond.2, by simpa using hcond.1⟩
        simp [List.getD_cons_zero]
        simp [List.getElem?_eq_getElem hi]
      · rcases (ih (b0 + 1)).mp h with ⟨j, i, op, hop, hret, hd⟩
        refine ⟨j + 1, i, op, by simpa using hop, hret, ?_⟩
        have : b0 + (j + 1) = b0 + 1 + j := by omega
        rw [this]; exact hd
    · rintro ⟨j, i, op, hop, hret, hd⟩
      cases j with
      | zero =>
        left
        simp only [List.getD_cons_zero] at hop
        have hi : i < ops.length := by
          by_contra hge
          rw [List.get?_eq_getElem?, List.getElem?_eq_none (by omega)] at hop
          exact Option.noConfusion hop
        refine ⟨i, hi, ?_⟩
        rw [Bool.and_eq_true, Bool.not_eq_true']
        have hgd : ops.getD i .unreachable = op := by
          rw [List.get?_eq_getElem?, List.getElem?_eq_getElem hi] at hop
          simp [List.getD, List.getElem?_eq_getElem hi, Option.some.injEq] at hop ⊢
          exact hop
        exact ⟨by simpa using hd, by rw [hgd]; exact hret⟩
      | succ j =>
        right
        refine (ih (b0 + 1)).mpr ⟨j, i, op, by simpa using hop, hret, ?_⟩
        have : b0 + 1 + j = b0 + (j + 1) := by omega
        rw [this]; exact hd

/-- C6: for every analyzable class with a constructor, the resolver records
`init_self_leak = true` iff the escape analysis reports a point, other than
directly at a return op, where the receiver may have escaped; in
particular, a constructor whose only escape is at its return op is treated
as non-leaking. -/
theorem C6_leak_iff_nonreturn_escape (env : CompUnit) (seen : Finset Nat) (cid fuel : Nat)
    (m : FuncIR) (hcid : cid < env.length) (hseen : cid ∉ seen)
    (hflags : ((getCl env cid).is_trait || (getCl env cid).inherits_python
        || (getCl env cid).allow_interpreted_subclasses
        || (getCl env cid).builtin_base.isSome || (getCl env cid).children.isNone
        || (getCl env cid).is_serializable) = false)
    (hbases : ∀ b ∈ (getCl env cid).mro.tail, b ∈ insert cid seen)
    (hinit : (getCl env cid).init = some m) :
    (getCl (analyze_always_defined_attrs_in_class (fuel + 1) cid (env, seen)).1
        cid).init_self_leak = true
      ↔ ∃ b i op, opAt m.blocks b i = some op ∧ op.isReturn = false
          ∧ dirtyAt ((analyze_self_leaks m.blocks (m.arg_regs.getD 0 0)).after b i) = true := by
  rw [analyzeInClass_run env seen cid fuel m hseen hflags hbases hinit]
  show (getCl (env.set cid (analyzedClass env cid m)) cid).init_self_leak = true ↔ _
  rw [getCl_set_eq env cid _ hcid]
  show anyDirtyNonReturn (analyze_self_leaks m.blocks (m.arg_regs.getD 0 0)) m.blocks 0
      = true ↔ _
  rw [anyDirtyNonReturn_iff]
  simp only [opAt, Nat.zero_add]

/-- C6 witness: the class of worked example 2 escapes at its first op, a
non-return point, so the resolver records it as leaking. -/
theorem C6_leak_iff_nonreturn_escape_witness :
    (getCl (analyze_always_defined_attrs_in_class 1 0 (exampleC5, ∅)).1 0).init_self_leak
      = true :=
  (C6_leak_iff_nonreturn_escape exampleC5 ∅ 0 0 exampleC5init
      (by decide) (by decide) (by decide) (by decide) (by decide)).mpr
    ⟨0, 0, .callOther true, by decide, by decide, by decide⟩

/-- C7 amended: after the single class resolver pass, an analyzable class
without an explicit constructor has both result sets equal to
`attrs_with_defaults`; the later subclass propagation pass may still remove
attributes from the always set, as the counterexample shows. -/
theorem C7_no_init_sets_equal_defaults (env : CompUnit) (seen : Finset Nat)
    (cid fuel : Nat) (hcid : cid < env.length) (hseen : cid ∉ seen)
    (hflags : ((getCl env cid).is_trait || (getCl env cid).inherits_python
        || (getCl env cid).allow_interpreted_subclasses
        || (getCl env cid).builtin_base.isSome || (getCl env cid).children.isNone
        || (getCl env cid).is_serializable) = false)
    (hbases : ∀ b ∈ (getCl env cid).mro.tail, b ∈ insert cid seen)
    (hinit : (getCl env cid).init = none) :
    (getCl (analyze_always_defined_attrs_in_class (fuel + 1) cid (env, seen)).1
        cid)._always_initialized_attrs = (getCl env cid).attrs_with_defaults
    ∧ (getCl (analyze_always_defined_attrs_in_class (fuel + 1) cid (env, seen)).1
        cid)._sometimes_initialized_attrs = (getCl env cid).attrs_with_defaults := by
  rw [analyzeInClass_run_noinit env seen cid fuel hseen hflags hbases hinit]
  constructor
  · show (getCl (env.set cid (analyzedClassNoInit env cid)) cid)._always_initialized_attrs = _
    rw [getCl_set_eq env cid _ hcid]; rfl
  · show (getCl (env.set cid (analyzedClassNoInit env cid)) cid)._sometimes_initialized_attrs
        = _
    rw [getCl_set_eq env cid _ hcid]; rfl

/-- C7 witness: the base class of the C7 counterexample unit, right after
the resolver pass, has both of its result sets equal to its default set. -/
theorem C7_no_init_sets_equal_defaults_witness :
    (getCl (analyze_always_defined_attrs_in_class 1 0 (exampleC7, ∅)).1
        0)._always_initialized_attrs = (getCl exampleC7 0).attrs_with_defaults
    ∧ (getCl (analyze_always_defined_attrs_in_class 1 0 (exampleC7, ∅)).1
        0)._sometimes_initialized_attrs = (getCl exampleC7 0).attrs_with_defaults :=
  C7_no_init_sets_equal_defaults exampleC7 ∅ 0 0
    (by decide) (by decide) (by decide) (by decide) (by decide)

lemma foldl_shrink {α β : Type} (g : Finset α → β → Finset α)
    (h : ∀ s x, g s x ⊆ s) (l : List β) (a : Finset α) : l.foldl g a ⊆ a := by
  induction l generalizing a with
  | nil => exact subset_rfl
  | cons x xs ih => exact (ih (g a x)).trans (h a x)

lemma foldl_grow {α β : Type} (g : Finset α → β → Finset α)
    (h : ∀ s x, s ⊆ g s x) (l : List β) (a : Finset α) : a ⊆ l.foldl g a := by
  induction l generalizing a with
  | nil => exact subset_rfl
  | cons x xs ih => exact (h a x).trans (ih (g a x))

lemma discardByGet_subset (r : Nat) (U : AnalysisResult AttrName) (b i : Nat) (op : Op)
    (attrs : Finset AttrName) : discardByGet r U b i op attrs ⊆ attrs := by
  cases op <;> simp only [discardByGet] <;> try exact subset_rfl
  split
  · exact Finset.erase_subset _ _
  · exact subset_rfl

lemma discardBySet_subset (r : Nat) (D U : AnalysisResult AttrName) (b i : Nat) (op : Op)
    (attrs : Finset AttrName) : discardBySet r D U b i op attrs ⊆ attrs := by
  cases op <;> simp only [discardBySet] <;> try exact subset_rfl
  split
  · exact Finset.erase_subset _ _
  · exact subset_rfl

lemma alwaysEdgeFold_subset (D U : AnalysisResult AttrName) (dirty : AnalysisResult Unit)
    (b i : Nat) (l : List Nat) (attrs : Finset AttrName) :
    l.foldl
        (fun attrs t =>
          if ¬ dirtyAt (dirty.after b i) ∧ dirtyAt (dirty.before t 0) then
            attrs ∩ (D.after t 0 \ U.after t 0)
          else attrs)
        attrs
      ⊆ attrs := by
  refine foldl_shrink _ (fun s x => ?_) l attrs
  split
  · exact Finset.inter_subset_left
  · exact subset_rfl

lemma findAlwaysInBlock_subset (r : Nat) (D U : AnalysisResult AttrName)
    (dirty : AnalysisResult Unit) (b : Nat) (ops : List Op) (i : Nat)
    (attrs : Finset AttrName) :
    findAlwaysInBlock r D U dirty b ops i attrs ⊆ attrs := by
  induction ops generalizing i attrs with
  | nil => exact subset_rfl
  | cons op rest ih =>
    rw [findAlwaysInBlock]
    have h12 : discardBySet r D U b i op (discardByGet r U b i op attrs) ⊆ attrs :=
      (discardBySet_subset r D U b i op _).trans (discardByGet_subset r U b i op attrs)
    split
    · split
      · exact Finset.inter_subset_left.trans h12
      · exact h12
    · exact (ih _ _).trans ((alwaysEdgeFold_subset D U dirty b i _ _).trans h12)

lemma findSometimesInBlock_grow (D : AnalysisResult AttrName) (dirty : AnalysisResult Unit)
    (b : Nat) (ops : List Op) (i : Nat) (attrs : Finset AttrName) :
    attrs ⊆ findSometimesInBlock D dirty b ops i attrs := by
  induction ops generalizing i attrs with
  | nil => exact subset_rfl
  | cons op rest ih =>
    rw [findSometimesInBlock]
    split
    · split
      · exact Finset.subset_union_left
      · exact subset_rfl
    · refine (foldl_grow _ (fun s x => ?_) op.targets attrs).trans (ih _ _)
      split
      · exact Finset.subset_union_left
      · exact subset_rfl

lemma findAlwaysGo_subset (r : Nat) (D U : AnalysisResult AttrName)
    (dirty : AnalysisResult Unit) (blocks : List (List Op)) (b : Nat)
    (attrs : Finset AttrName) :
    findAlwaysGo r D U dirty blocks b attrs ⊆ attrs := by
  induction blocks generalizing b attrs with
  | nil => exact subset_rfl
  | cons ops rest ih =>
    exact (ih _ _).trans (findAlwaysInBlock_subset r D U dirty b ops 0 attrs)

lemma findSometimesGo_grow (D : AnalysisResult AttrName) (dirty : AnalysisResult Unit)
    (blocks : List (List Op)) (b : Nat) (attrs : Finset AttrName) :
    attrs ⊆ findSometimesGo D dirty blocks b attrs := by
  induction blocks generalizing b attrs with
  | nil => exact subset_rfl
  | cons ops rest ih =>
    exact (findSometimesInBlock_grow D dirty b ops 0 attrs).trans (ih _ _)


lemma foldl_inter_of_mem (D U : AnalysisResult AttrName) (dirty : AnalysisResult Unit)
    (b i : Nat) (l : List Nat) (t : Nat) (ht : t ∈ l)
    (hc : ¬ dirtyAt (dirty.after b i) ∧ dirtyAt (dirty.before t 0)) (a : Finset AttrName) :
    l.foldl
        (fun attrs u =>
          if ¬ dirtyAt (dirty.after b i) ∧ dirtyAt (dirty.before u 0) then
            attrs ∩ (D.after u 0 \ U.after u 0)
          else attrs)
        a
      ⊆ D.after t 0 \ U.after t 0 := by
  induction l generalizing a with
  | nil => cases ht
  | cons u us ih =>
    rcases List.mem_cons.mp ht with rfl | hmem
    · simp only [List.foldl_cons, if_pos hc]
      exact (alwaysEdgeFold_subset D U dirty b i us _).trans Finset.inter_subset_right
    · exact ih hmem _

lemma foldl_union_of_mem (D : AnalysisResult AttrName) (dirty : AnalysisResult Unit)
    (b i : Nat) (l : List Nat) (t : Nat) (ht : t ∈ l)
    (hc : ¬ dirtyAt (dirty.after b i) ∧ dirtyAt (dirty.before t 0)) (a : Finset AttrName) :
    D.after t 0
      ⊆ l.foldl
          (fun attrs u =>
            if ¬ dirtyAt (dirty.after b i) ∧ dirtyAt (dirty.before u 0) then
              attrs ∪ D.after u 0
            else attrs)
          a := by
  induction l generalizing a with
  | nil => cases ht
  | cons u us ih =>
    rcases List.mem_cons.mp ht with rfl | hmem
    · simp only [List.foldl_cons, if_pos hc]
      refine Finset.subset_union_right.trans (foldl_grow _ (fun s x => ?_) us _)
      split
      · exact Finset.subset_union_left
      · exact subset_rfl
    · exact ih hmem _

lemma findAlwaysInBlock_subset_sometimes (r : Nat) (D U : AnalysisResult AttrName)
    (dirty : AnalysisResult Unit) (b : Nat) (ops : List Op) (i : Nat)
    (hev : hasFreezeEventInBlock dirty b ops i = true) (attrs s : Finset AttrName) :
    findAlwaysInBlock r D U dirty b ops i attrs
      ⊆ findSometimesInBlock D dirty b ops i s := by
  induction ops generalizing i attrs s with
  | nil => exact absurd hev (by simp [hasFreezeEventInBlock])
  | cons op rest ih =>
    rw [hasFreezeEventInBlock] at hev
    rw [findAlwaysInBlock, findSometimesInBlock]
    by_cases hd : dirtyAt (dirty.after b i) = true
    · rw [if_pos hd] at hev ⊢
      rw [if_pos hd]
      have hb : ¬ dirtyAt (dirty.before b i) = true := by
        simpa [Bool.not_eq_true'] using hev
      rw [if_pos hb, if_pos hb]
      intro x hx
      exact Finset.mem_union_right s (Finset.mem_sdiff.mp (Finset.mem_inter.mp hx).2).1
    · rw [if_neg hd] at hev ⊢
      rw [if_neg hd]
      rw [Bool.or_eq_true] at hev
      rcases hev with hany | hrest
      · rcases List.any_eq_true.mp hany with ⟨t, ht, hcb⟩
        rw [Bool.and_eq_true, Bool.not_eq_true'] at hcb
        have hc : ¬ dirtyAt (dirty.after b i) ∧ dirtyAt (dirty.before t 0) := by
          exact ⟨hd, hcb.2⟩
        refine ((findAlwaysInBlock_subset r D U dirty b rest (i + 1) _).trans
          ((foldl_inter_of_mem D U dirty b i op.targets t ht hc _).trans ?_)).trans
          (findSometimesInBlock_grow D dirty b rest (i + 1) _)
        exact (Finset.sdiff_subset).trans (foldl_union_of_mem D dirty b i op.targets t ht hc s)
      · exact ih (i + 1) hrest _ _

lemma findAlwaysGo_subset_sometimes (r : Nat) (D U : AnalysisResult AttrName)
    (dirty : AnalysisResult Unit) (blocks : List (List Op)) (b : Nat)
    (hev : hasFreezeEventGo dirty blocks b = true) (attrs s : Finset AttrName) :
    findAlwaysGo r D U dirty blocks b attrs ⊆ findSometimesGo D dirty blocks b s := by
  induction blocks generalizing b attrs s with
  | nil => exact absurd hev (by simp [hasFreezeEventGo])
  | cons ops rest ih =>
    rw [hasFreezeEventGo] at hev
    rw [findAlwaysGo, findSometimesGo]
    by_cases hb : hasFreezeEventInBlock dirty b ops 0 = true
    · exact (findAlwaysGo_subset r D U dirty rest (b + 1) _).trans
        ((findAlwaysInBlock_subset_sometimes r D U dirty b ops 0 hb attrs s).trans
          (findSometimesGo_grow D dirty rest (b + 1) _))
    · have hrest : hasFreezeEventGo dirty rest (b + 1) = true := by
        rw [Bool.or_eq_true] at hev
        rcases hev with h | h
        · exact absurd h hb
        · exact h
      exact ih (b + 1) hrest _ _

/-- C2 amended: for every class whose constructor analysis meets at least
one freeze event (a dirty transition point or an edge into a dirty block,
which holds in particular whenever the constructor can return), the always
set computed by the resolver is a subset of the sometimes set: both scans
act at the same freeze events, the always set ends below the maybe-defined
facts of each event and the sometimes set ends above them.  Without any
freeze event the inclusion can fail, as the C2 counterexample shows. -/
theorem C2_always_subset_sometimes_with_event (env : CompUnit) (cid : Nat) (m : FuncIR)
    (hev : hasFreezeEvent (analyze_self_leaks m.blocks (m.arg_regs.getD 0 0)) m.blocks
      = true) :
    (analyzedClass env cid m)._always_initialized_attrs
      ⊆ (analyzedClass env cid m)._sometimes_initialized_attrs := by
  show (find_always_defined_attributes m.blocks (m.arg_regs.getD 0 0) (allAttrs env cid)
        (analyze_maybe_defined_attrs_in_init env m.blocks (m.arg_regs.getD 0 0)
          (getCl env cid).attrs_with_defaults)
        (analyze_maybe_undefined_attrs_in_init env m.blocks (m.arg_regs.getD 0 0)
          (allAttrs env cid \ (getCl env cid).attrs_with_defaults))
        (analyze_self_leaks m.blocks (m.arg_regs.getD 0 0))).filter
        (fun a => (getCl env cid).is_deletable a = false)
      ⊆ find_sometimes_defined_attributes m.blocks (m.arg_regs.getD 0 0)
          (analyze_maybe_defined_attrs_in_init env m.blocks (m.arg_regs.getD 0 0)
            (getCl env cid).attrs_with_defaults)
          (analyze_self_leaks m.blocks (m.arg_regs.getD 0 0))
  refine (Finset.filter_subset _ _).trans ?_
  exact findAlwaysGo_subset_sometimes _ _ _ _ m.blocks 0 hev _ _

/-- C2 witness: the constructor of worked example 1 ends in a return, so
its analysis has a freeze event, and the inclusion of the always set in
the sometimes set follows from the amended C2 theorem. -/
theorem C2_always_subset_sometimes_with_event_witness :
    hasFreezeEvent
        (analyze_self_leaks exampleC3init.blocks (exampleC3init.arg_regs.getD 0 0))
        exampleC3init.blocks = true
    ∧ (analyzedClass exampleC3 0 exampleC3init)._always_initialized_attrs
        ⊆ (analyzedClass exampleC3 0 exampleC3init)._sometimes_initialized_attrs :=
  ⟨by decide, C2_always_subset_sometimes_with_event exampleC3 0 exampleC3init (by decide)⟩

lemma getD_range_map {α : Type} (f : Nat → Finset α) (n b : Nat) :
    ((List.range n).map f).getD b ∅ = if b < n then f b else ∅ := by
  rcases Nat.lt_or_ge b n with h | h
  · rw [if_pos h]
    rw [List.getD_eq_getElem?_getD, List.getElem?_map, List.getElem?_range h]
    rfl
  · rw [if_neg (Nat.not_lt.mpr h)]
    rw [List.getD_eq_getElem?_getD, List.getElem?_map]
    rw [List.getElem?_eq_none (by simpa using h)]
    rfl

lemma dfTransfer_mono {α : Type} [DecidableEq α] (gk : GenAndKill α) {s t : Finset α}
    (h : s ⊆ t) : dfTransfer gk s ⊆ dfTransfer gk t :=
  Finset.union_subset_union (Finset.sdiff_subset_sdiff h subset_rfl) subset_rfl

lemma dfTransfer_grow {α : Type} [DecidableEq α] (gk : GenAndKill α) (h : gk.2 = ∅)
    (s : Finset α) : s ⊆ dfTransfer gk s := by
  rw [dfTransfer, h]
  simp only [Finset.sdiff_empty]
  exact Finset.subset_union_left

lemma dfBlockOut_mono {α : Type} [DecidableEq α] (visit : Op → GenAndKill α)
    (ops : List Op) {s t : Finset α} (h : s ⊆ t) :
    dfBlockOut visit s ops ⊆ dfBlockOut visit t ops := by
  induction ops generalizing s t with
  | nil => exact h
  | cons op rest ih => exact ih (dfTransfer_mono (visit op) h)

lemma dfBlockOut_grow {α : Type} [DecidableEq α] (visit : Op → GenAndKill α)
    (hkf : ∀ op, (visit op).2 = ∅) (ops : List Op) (s : Finset α) :
    s ⊆ dfBlockOut visit s ops := by
  induction ops generalizing s with
  | nil => exact subset_rfl
  | cons op rest ih => exact (dfTransfer_grow (visit op) (hkf op) s).trans (ih _)


lemma foldl_union_sub {α β : Type} [DecidableEq α] (l : List β) (c : β → Prop)
    [DecidablePred c] (f : β → Finset α) (t : β) (ht : t ∈ l) (hc : c t) (a : Finset α) :
    f t ⊆ l.foldl (fun acc p => if c p then acc ∪ f p else acc) a := by
  induction l generalizing a with
  | nil => cases ht
  | cons u us ih =>
    rcases List.mem_cons.mp ht with rfl | hmem
    · simp only [List.foldl_cons, if_pos hc]
      refine Finset.subset_union_right.trans (foldl_grow _ (fun s x => ?_) us _)
      split
      · exact Finset.subset_union_left
      · exact subset_rfl
    · exact ih hmem _

lemma foldl_union_mono {α β : Type} [DecidableEq α] (l : List β) (c : β → Prop)
    [DecidablePred c] (f g : β → Finset α) (hfg : ∀ p, f p ⊆ g p) {a b : Finset α} (hab : a ⊆ b) :
    l.foldl (fun acc p => if c p then acc ∪ f p else acc) a
      ⊆ l.foldl (fun acc p => if c p then acc ∪ g p else acc) b := by
  induction l generalizing a b with
  | nil => exact hab
  | cons u us ih =>
    simp only [List.foldl_cons]
    refine ih ?_
    split
    · exact Finset.union_subset_union hab (hfg u)
    · exact hab

lemma dfStep_getD_lt {α : Type} [DecidableEq α] (visit : Op → GenAndKill α)
    (blocks : List (List Op)) (initial : Finset α) (inv : List (Finset α)) (b : Nat)
    (hb : b < blocks.length) :
    (dfStep visit blocks initial inv).getD b ∅
      = (List.range blocks.length).foldl
          (fun acc p =>
            if b ∈ blockSuccs (blocks.getD p []) then
              acc ∪ dfBlockOut visit (inv.getD p ∅) (blocks.getD p [])
            else acc)
          (if b = 0 then initial else ∅) := by
  rw [dfStep, getD_range_map, if_pos hb]

lemma dfStep_getD_oob {α : Type} [DecidableEq α] (visit : Op → GenAndKill α)
    (blocks : List (List Op)) (initial : Finset α) (inv : List (Finset α)) (b : Nat)
    (hb : ¬ b < blocks.length) :
    (dfStep visit blocks initial inv).getD b ∅ = ∅ := by
  rw [dfStep, getD_range_map, if_neg hb]

lemma dfStep_mono {α : Type} [DecidableEq α] (visit : Op → GenAndKill α)
    (blocks : List (List Op)) (initial : Finset α) {u v : List (Finset α)}
    (h : ∀ b, u.getD b ∅ ⊆ v.getD b ∅) (b : Nat) :
    (dfStep visit blocks initial u).getD b ∅ ⊆ (dfStep visit blocks initial v).getD b ∅ := by
  rcases Nat.lt_or_ge b blocks.length with hb | hb
  · rw [dfStep_getD_lt visit blocks initial u b hb, dfStep_getD_lt visit blocks initial v b hb]
    exact foldl_union_mono (List.range blocks.length)
      (fun p => b ∈ blockSuccs (blocks.getD p []))
      (fun p => dfBlockOut visit (u.getD p ∅) (blocks.getD p []))
      (fun p => dfBlockOut visit (v.getD p ∅) (blocks.getD p []))
      (fun p => dfBlockOut_mono visit (blocks.getD p []) (h p)) subset_rfl
  · rw [dfStep_getD_oob visit blocks initial u b (Nat.not_lt.mpr hb)]
    exact Finset.empty_subset _

lemma dfStart_getD {α : Type} [DecidableEq α] (blocks : List (List Op)) (initial : Finset α)
    (b : Nat) :
    (dfStart blocks initial).getD b ∅
      = if b < blocks.length then (if b = 0 then initial else ∅) else ∅ := by
  rw [dfStart, getD_range_map]

lemma dfStart_le_step {α : Type} [DecidableEq α] (visit : Op → GenAndKill α)
    (blocks : List (List Op)) (initial : Finset α) (b : Nat) :
    (dfStart blocks initial).getD b ∅
      ⊆ (dfStep visit blocks initial (dfStart blocks initial)).getD b ∅ := by
  rcases Nat.lt_or_ge b blocks.length with hb | hb
  · rw [dfStart_getD, if_pos hb, dfStep_getD_lt visit blocks initial _ b hb]
    refine foldl_grow _ (fun s x => ?_) _ _
    split
    · exact Finset.subset_union_left
    · exact subset_rfl
  · rw [dfStart_getD, if_neg (Nat.not_lt.mpr hb)]
    exact Finset.empty_subset _

lemma dfIter_succ_out {α : Type} [DecidableEq α] (visit : Op → GenAndKill α)
    (blocks : List (List Op)) (initial : Finset α) (n : Nat) (inv : List (Finset α)) :
    dfIter visit blocks initial (n + 1) inv
      = dfStep visit blocks initial (dfIter visit blocks initial n inv) := by
  induction n generalizing inv with
  | zero => rfl
  | succ n ih =>
    show dfIter visit blocks initial (n + 1) (dfStep visit blocks initial inv) = _
    rw [ih (dfStep visit blocks initial inv)]
    rfl

lemma dfIter_chain {α : Type} [DecidableEq α] (visit : Op → GenAndKill α)
    (blocks : List (List Op)) (initial : Finset α) (n : Nat) (b : Nat) :
    (dfIter visit blocks initial n (dfStart blocks initial)).getD b ∅
      ⊆ (dfIter visit blocks initial (n + 1) (dfStart blocks initial)).getD b ∅ := by
  induction n generalizing b with
  | zero => exact dfStart_le_step visit blocks initial b
  | succ n ih =>
    rw [dfIter_succ_out, dfIter_succ_out]
    exact dfStep_mono visit blocks initial (fun c => ih c) b

lemma dfIter_le {α : Type} [DecidableEq α] (visit : Op → GenAndKill α)
    (blocks : List (List Op)) (initial : Finset α) {k n : Nat} (h : k ≤ n) (b : Nat) :
    (dfIter visit blocks initial k (dfStart blocks initial)).getD b ∅
      ⊆ (dfIter visit blocks initial n (dfStart blocks initial)).getD b ∅ := by
  induction n with
  | zero =>
    have : k = 0 := Nat.le_zero.mp h
    rw [this]
  | succ n ih =>
    rcases Nat.lt_or_ge k (n + 1) with hk | hk
    · exact (ih (Nat.lt_succ_iff.mp hk)).trans (dfIter_chain visit blocks initial n b)
    · have : k = n + 1 := Nat.le_antisymm h hk
      rw [this]


lemma reach_initial_subset {α : Type} [DecidableEq α] (visit : Op → GenAndKill α)
    (blocks : List (List Op)) (initial : Finset α)
    (hkf : ∀ op, (visit op).2 = ∅) :
    ∀ k b, b ∈ reachIter blocks k {0} → b < blocks.length →
      initial
        ⊆ (dfIter visit blocks initial k (dfStart blocks initial)).getD b ∅ := by
  intro k
  induction k with
  | zero =>
    intro b hb hlen
    have hb0 : b = 0 := by simpa [reachIter] using hb
    subst hb0
    rw [show dfIter visit blocks initial 0 (dfStart blocks initial)
        = dfStart blocks initial from rfl]
    rw [dfStart_getD, if_pos hlen, if_pos rfl]
  | succ k ih =>
    intro b hb hlen
    rw [reachIter] at hb
    rw [dfIter_succ_out]
    rcases Finset.mem_union.mp hb with hmem | hmem
    · refine (ih b hmem hlen).trans ?_
      have := dfIter_chain visit blocks initial k b
      rw [dfIter_succ_out] at this
      exact this
    · rcases Finset.mem_biUnion.mp hmem with ⟨p, hp, hsucc⟩
      have hsucc2 : b ∈ blockSuccs (blocks.getD p []) := by
        simpa using hsucc
      have hplen : p < blocks.length := by
        by_contra hge
        rw [List.getD_eq_default] at hsucc2
        · simp [blockSuccs] at hsucc2
        · omega
      refine ((ih p hp hplen).trans
        (dfBlockOut_grow visit hkf (blocks.getD p []) _)).trans ?_
      rw [dfStep_getD_lt visit blocks initial _ b hlen]
      exact foldl_union_sub (List.range blocks.length)
        (fun q => b ∈ blockSuccs (blocks.getD q []))
        (fun q => dfBlockOut visit
          ((dfIter visit blocks initial k (dfStart blocks initial)).getD q ∅)
          (blocks.getD q []))
        p (List.mem_range.mpr hplen) hsucc2 _

lemma initial_subset_before {α : Type} [DecidableEq α] (visit : Op → GenAndKill α)
    (blocks : List (List Op)) (initial : Finset α) (b i : Nat)
    (hkf : ∀ op, (visit op).2 = ∅) (hb : b < blocks.length)
    (hreach : b ∈ reachableBlocks blocks) :
    initial ⊆ (run_analysis visit blocks initial).before b i := by
  show initial ⊆ dfBlockOut visit
    ((dfIter visit blocks initial (dfFuel visit blocks initial)
        (dfStart blocks initial)).getD b ∅)
    ((blocks.getD b []).take i)
  refine subset_trans ?_ (dfBlockOut_grow visit hkf _ _)
  refine (reach_initial_subset visit blocks initial hkf blocks.length b hreach hb).trans ?_
  refine dfIter_le visit blocks initial ?_ b
  rw [dfFuel]
  omega

lemma maybeDefinedVisitor_kill_free (env : CompUnit) (r : Nat) (op : Op) :
    (attributeMaybeDefinedVisitor env r op).2 = ∅ := by
  cases op with
  | setAttr obj a =>
    show (if obj = r then (({a} : Finset AttrName), (∅ : Finset AttrName)) else (∅, ∅)).2 = ∅
    split
    · rfl
    · rfl
  | getAttr obj a => rfl
  | callInit c => rfl
  | callOther u => rfl
  | branch t f => rfl
  | goto t => rfl
  | ret => rfl
  | unreachable => rfl


lemma mem_markStep (r : Nat) (D : AnalysisResult AttrName) (dirty : AnalysisResult Unit)
    (b i : Nat) (op : Op) (acc : Finset (Nat × Nat)) (p : Nat × Nat)
    (hp : p ∈ markStep r D dirty b i op acc) :
    p ∈ acc ∨ ∃ obj a, op = .setAttr obj a ∧ p = (b, i) ∧ obj = r
      ∧ a ∉ D.before b i ∧ dirtyAt (dirty.after b i) = false := by
  cases op with
  | setAttr obj a =>
    have hp2 : p ∈ (if obj = r ∧ a ∉ D.before b i ∧ ¬ dirtyAt (dirty.after b i)
        then insert (b, i) acc else acc) := hp
    split at hp2
    · rcases Finset.mem_insert.mp hp2 with rfl | hin
      · rename_i hcond
        exact Or.inr ⟨obj, a, rfl, rfl, hcond.1, hcond.2.1,
          Bool.not_eq_true _ ▸ hcond.2.2⟩
      · exact Or.inl hin
    · exact Or.inl hp2
  | getAttr obj a => exact Or.inl hp
  | callInit c => exact Or.inl hp
  | callOther u => exact Or.inl hp
  | branch t f => exact Or.inl hp
  | goto t => exact Or.inl hp
  | ret => exact Or.inl hp
  | unreachable => exact Or.inl hp

lemma mem_markInBlock (r : Nat) (D : AnalysisResult AttrName) (dirty : AnalysisResult Unit)
    (b : Nat) (ops : List Op) :
    ∀ (i : Nat) (acc : Finset (Nat × Nat)) (p : Nat × Nat),
      p ∈ markInBlock r D dirty b ops i acc →
      p ∈ acc ∨ ∃ j obj a, ops.get? j = some (.setAttr obj a) ∧ p = (b, i + j)
        ∧ obj = r ∧ a ∉ D.before b (i + j)
        ∧ dirtyAt (dirty.after b (i + j)) = false := by
  induction ops with
  | nil => intro i acc p hp; exact Or.inl hp
  | cons op rest ih =>
    intro i acc p hp
    rw [markInBlock] at hp
    rcases ih (i + 1) _ p hp with hacc | ⟨j, obj, a, hget, hpeq, hobj, hnd, hdirty⟩
    · rcases mem_markStep r D dirty b i op acc p hacc with hin | ⟨obj, a, hop, hpeq, hobj, hnd, hdirty⟩
      · exact Or.inl hin
      · right
        exact ⟨0, obj, a, by rw [hop]; rfl, by simpa using hpeq, hobj,
          by simpa using hnd, by simpa using hdirty⟩
    · right
      refine ⟨j + 1, obj, a, by simpa using hget, ?_, hobj, ?_, ?_⟩
      · rw [hpeq]; congr 1; omega
      · have hq : i + (j + 1) = i + 1 + j := by omega
        rw [hq]; exact hnd
      · have hq : i + (j + 1) = i + 1 + j := by omega
        rw [hq]; exact hdirty

lemma mem_markGo (r : Nat) (D : AnalysisResult AttrName) (dirty : AnalysisResult Unit)
    (blocks : List (List Op)) :
    ∀ (b0 : Nat) (acc : Finset (Nat × Nat)) (p : Nat × Nat),
      p ∈ markGo r D dirty blocks b0 acc →
      p ∈ acc ∨ ∃ k j obj a, (blocks.getD k []).get? j = some (.setAttr obj a)
        ∧ p = (b0 + k, j) ∧ obj = r ∧ a ∉ D.before (b0 + k) j
        ∧ dirtyAt (dirty.after (b0 + k) j) = false := by
  induction blocks with
  | nil => intro b0 acc p hp; exact Or.inl hp
  | cons ops rest ih =>
    intro b0 acc p hp
    rw [markGo] at hp
    rcases ih (b0 + 1) _ p hp with hacc | ⟨k, j, obj, a, hget, hpeq, hobj, hnd, hdirty⟩
    · rcases mem_markInBlock r D dirty b0 ops 0 acc p hacc with hin | ⟨j, obj, a, hget, hpeq, hobj, hnd, hdirty⟩
      · exact Or.inl hin
      · right
        exact ⟨0, j, obj, a, by simpa using hget, by simpa using hpeq, hobj,
          by simpa using hnd, by simpa using hdirty⟩
    · right
      refine ⟨k + 1, j, obj, a, by simpa using hget, ?_, hobj, ?_, ?_⟩
      · rw [hpeq]; congr 1; omega
      · have hq : b0 + (k + 1) = b0 + 1 + k := by omega
        rw [hq]; exact hnd
      · have hq : b0 + (k + 1) = b0 + 1 + k := by omega
        rw [hq]; exact hdirty


/-- C10 amended: a receiver attribute write whose target attribute has a
class body default is never tagged as an initializing write when the write
sits in a block reachable from the entry: the maybe-defined pass starts
from `attrs_with_defaults`, kills nothing, and its facts only grow along
the fixpoint iteration, so the attribute is maybe defined before every op
of every reachable block and the marking condition fails.  For a write in
an unreachable block the in-state is empty and the tag can be applied, as
the C10 counterexample shows. -/
theorem C10_reachable_defaulted_write_not_marked (env : CompUnit)
    (blocks : List (List Op)) (self_reg : Nat) (defaults : Finset AttrName)
    (dirty : AnalysisResult Unit) (a : AttrName) (b i : Nat)
    (ha : a ∈ defaults)
    (hop : opAt blocks b i = some (.setAttr self_reg a))
    (hreach : b ∈ reachableBlocks blocks) :
    (b, i) ∉ mark_attr_initialization_ops blocks self_reg
        (analyze_maybe_defined_attrs_in_init env blocks self_reg defaults) dirty := by
  intro hmem
  have hb : b < blocks.length := by
    by_contra hge
    rw [opAt, List.getD_eq_default] at hop
    · simp at hop
    · omega
  rcases mem_markGo self_reg _ dirty blocks 0 ∅ (b, i) hmem with hin |
    ⟨k, j, obj, a2, hget, hpeq, hobj, hnd, hdirty⟩
  · exact absurd hin (Finset.not_mem_empty _)
  · have hbk := Prod.mk.inj hpeq
    have hk : k = b := by omega
    have hj : j = i := by omega
    rw [hk, hj] at hget
    rw [hk, hj] at hnd
    simp only [Nat.zero_add] at hnd
    rw [opAt] at hop
    rw [hop] at hget
    injection Option.some.inj hget with h1 h2
    rw [← h2] at hnd
    exact hnd (initial_subset_before (attributeMaybeDefinedVisitor env self_reg) blocks
      defaults b i (maybeDefinedVisitor_kill_free env self_reg) hb hreach ha)

/-- C10 witness: the reachable entry block write of `x` in a constructor
with `x` defaulted is not tagged. -/
theorem C10_reachable_defaulted_write_not_marked_witness :
    "x" ∈ ({"x"} : Finset AttrName)
    ∧ opAt exampleC6init.blocks 0 0 = some (Op.setAttr 0 "x")
    ∧ 0 ∈ reachableBlocks exampleC6init.blocks
    ∧ (0, 0) ∉ mark_attr_initialization_ops exampleC6init.blocks 0
        (analyze_maybe_defined_attrs_in_init [] exampleC6init.blocks 0 {"x"})
        (analyze_self_leaks exampleC6init.blocks 0) :=
  ⟨by decide, by decide, by decide,
    C10_reachable_defaulted_write_not_marked [] exampleC6init.blocks 0 {"x"}
      (analyze_self_leaks exampleC6init.blocks 0) "x" 0 0
      (by decide) (by decide) (by decide)⟩

lemma getCl_set_ne (env : CompUnit) (c k : Nat) (x : ClassIR) (h : k ≠ c) :
    getCl (env.set c x) k = getCl env k := by
  simp [getCl, List.getD]
  rw [List.getElem?_set_ne (fun hq => h hq.symm)]

lemma sameStatics_refl (x : ClassIR) : sameStatics x x := ⟨rfl, rfl, rfl⟩

lemma sameStatics_trans {x y z : ClassIR} (h1 : sameStatics x y) (h2 : sameStatics y z) :
    sameStatics x z :=
  ⟨h1.1.trans h2.1, h1.2.1.trans h2.2.1, h1.2.2.trans h2.2.2⟩

lemma foldl_inv {σ β : Type} (P : σ → Prop) (f : σ → β → σ) (l : List β)
    (h : ∀ s x, P s → P (f s x)) : ∀ s, P s → P (l.foldl f s) := by
  induction l with
  | nil => exact fun s hs => hs
  | cons x xs ih => exact fun s hs => ih (f s x) (h s x hs)

lemma foldl_bind_inv {σ β : Type} (P : σ → Prop) (g : β → σ → Option σ) (l : List β)
    (h : ∀ x s s2, g x s = some s2 → P s → P s2) :
    ∀ (acc : Option σ) (s2 : σ),
      l.foldl (fun acc x => acc.bind (g x)) acc = some s2 →
      (∀ s, acc = some s → P s) → P s2 := by
  induction l with
  | nil =>
    intro acc s2 hfold hacc
    exact hacc s2 hfold
  | cons x xs ih =>
    intro acc s2 hfold hacc
    refine ih (acc.bind (g x)) s2 hfold ?_
    intro s hs
    rcases Option.bind_eq_some.mp hs with ⟨s1, hs1, hgx⟩
    exact h x s1 s hgx (hacc s1 hs1)

lemma analyzedClass_statics (env : CompUnit) (cid : Nat) (m : FuncIR) :
    sameStatics (analyzedClass env cid m) (getCl env cid) := ⟨rfl, rfl, rfl⟩

lemma analyzedClassNoInit_statics (env : CompUnit) (cid : Nat) :
    sameStatics (analyzedClassNoInit env cid) (getCl env cid) := ⟨rfl, rfl, rfl⟩

lemma analyzedClass_always (env : CompUnit) (cid : Nat) (m : FuncIR) :
    ∀ a ∈ (analyzedClass env cid m)._always_initialized_attrs,
      a ∉ (getCl env cid).deletable := by
  intro a ha
  have ha2 := Finset.mem_filter.mp ha
  intro hdel
  have : (getCl env cid).is_deletable a = true := by
    simp [ClassIR.is_deletable, hdel]
  rw [ha2.2] at this
  exact Bool.noConfusion this

lemma analyzedClassNoInit_always (env : CompUnit) (cid : Nat) :
    (analyzedClassNoInit env cid)._always_initialized_attrs
      = (getCl env cid).attrs_with_defaults := rfl


lemma getCl_set_self (env : CompUnit) (c : Nat) (x : ClassIR) :
    getCl (env.set c x) c = x ∨ env.set c x = env := by
  rcases Nat.lt_or_ge c env.length with h | h
  · exact Or.inl (getCl_set_eq env c x h)
  · exact Or.inr (List.set_eq_of_length_le h)

lemma C9Inv_set (cid : Nat) (d : List AttrName) (w : Finset AttrName) (env : CompUnit)
    (c : Nat) (x : ClassIR) (h : C9Inv cid d w env)
    (hstat : sameStatics x (getCl env c))
    (halways : c = cid → ∀ a ∈ x._always_initialized_attrs, a ∉ d) :
    C9Inv cid d w (env.set c x) := by
  by_cases hc : cid = c
  · subst hc
    rcases getCl_set_self env cid x with heq | heq
    · refine ⟨?_, ?_, ?_⟩
      · rw [heq]; exact hstat.2.2.trans h.1
      · rw [heq]; exact hstat.2.1.trans h.2.1
      · rw [heq]; exact halways rfl
    · rw [heq]; exact h
  · refine ⟨?_, ?_, ?_⟩
    · rw [getCl_set_ne env c cid x hc]; exact h.1
    · rw [getCl_set_ne env c cid x hc]; exact h.2.1
    · rw [getCl_set_ne env c cid x hc]; exact h.2.2

lemma analyzeInClass_C9 (cid : Nat) (d : List AttrName) (w : Finset AttrName)
    (hwd : ∀ a ∈ w, a ∉ d) :
    ∀ (fuel c : Nat) (st : CompUnit × Finset Nat),
      C9Inv cid d w st.1
      → C9Inv cid d w (analyze_always_defined_attrs_in_class fuel c st).1 := by
  intro fuel
  induction fuel with
  | zero => exact fun c st h => h
  | succ n ih =>
    intro c st h
    obtain ⟨env, seen⟩ := st
    rw [analyze_always_defined_attrs_in_class]
    dsimp only
    split
    · exact h
    · split
      · exact h
      · have h1 : C9Inv cid d w
            ((getCl env c).mro.tail.foldl
              (fun st b => analyze_always_defined_attrs_in_class n b st)
              (env, insert c seen)).1 :=
          foldl_inv (fun st => C9Inv cid d w st.1)
            (fun s x => analyze_always_defined_attrs_in_class n x s)
            ((getCl env c).mro.tail) (fun s x hs => ih x s hs) (env, insert c seen) h
        set st1 := (getCl env c).mro.tail.foldl
          (fun st b => analyze_always_defined_attrs_in_class n b st)
          (env, insert c seen) with hst1
        cases hi : (getCl st1.1 c).init with
        | none =>
          simp only [hi]
          refine C9Inv_set cid d w st1.1 c _ h1 (analyzedClassNoInit_statics st1.1 c) ?_
          intro hcc a ha
          subst hcc
          rw [analyzedClassNoInit_always] at ha
          rw [h1.2.1] at ha
          exact hwd a ha
        | some m =>
          simp only [hi]
          refine C9Inv_set cid d w st1.1 c _ h1 (analyzedClass_statics st1.1 c m) ?_
          intro hcc a ha
          subst hcc
          intro hdel
          exact analyzedClass_always st1.1 c m a ha (h1.1 ▸ hdel)


lemma updateSub_C9 (cid : Nat) (d : List AttrName) (w : Finset AttrName) :
    ∀ (fuel c : Nat) (st st2 : CompUnit × Finset Nat),
      update_always_defined_attrs_using_subclasses fuel c st = some st2 →
      C9Inv cid d w st.1 → C9Inv cid d w st2.1 := by
  intro fuel
  induction fuel with
  | zero =>
    intro c st st2 hup h
    exact absurd hup (by rw [update_always_defined_attrs_using_subclasses]; simp)
  | succ n ih =>
    intro c st st2 hup h
    obtain ⟨env, seen⟩ := st
    rw [update_always_defined_attrs_using_subclasses] at hup
    dsimp only at hup
    split at hup
    · cases hup; exact h
    · split at hup
      · cases hup; exact h
      · rename_i cs hcs
        split at hup
        · exact absurd hup (by simp)
        · rename_i st3 hloop
          cases hup
          have h3 : C9Inv cid d w st3.1 := by
            by_cases hcard : ((getCl env c)._always_initialized_attrs).card = 0
            · rw [if_pos hcard] at hloop
              cases hloop; exact h
            · rw [if_neg hcard] at hloop
              exact foldl_bind_inv (fun s => C9Inv cid d w s.1)
                (fun child s => update_always_defined_attrs_using_subclasses n child s)
                cs (fun x s s2 hg hs => ih x s s2 hg hs) (some (env, seen)) st3 hloop
                (fun s hs => by cases hs; exact h)
          refine C9Inv_set cid d w st3.1 c _ h3 ⟨rfl, rfl, rfl⟩ ?_
          intro hcc a ha
          have hmem := Finset.mem_sdiff.mp ha
          subst hcc
          exact h3.2.2 a hmem.1


lemma resultFrame_refl (env : CompUnit) : resultFrame env env :=
  fun _ => ⟨sameStatics_refl _, rfl, rfl⟩

lemma resultFrame_trans {e1 e2 e3 : CompUnit} (h1 : resultFrame e1 e2)
    (h2 : resultFrame e2 e3) : resultFrame e1 e3 := by
  intro k
  exact ⟨sameStatics_trans (h2 k).1 (h1 k).1, (h2 k).2.1.trans (h1 k).2.1,
    (h2 k).2.2.trans (h1 k).2.2⟩

lemma resultFrame_set (env : CompUnit) (c : Nat) (x : ClassIR)
    (hstat : sameStatics x (getCl env c))
    (halw : x._always_initialized_attrs = (getCl env c)._always_initialized_attrs)
    (hsom : x._sometimes_initialized_attrs = (getCl env c)._sometimes_initialized_attrs) :
    resultFrame env (env.set c x) := by
  intro k
  by_cases hk : k = c
  · subst hk
    rcases getCl_set_self env k x with heq | heq
    · rw [heq]; exact ⟨hstat, halw, hsom⟩
    · rw [heq]; exact ⟨sameStatics_refl _, rfl, rfl⟩
  · rw [getCl_set_ne env c k x hk]
    exact ⟨sameStatics_refl _, rfl, rfl⟩

lemma bitmapExtendBase_frame (env : CompUnit) (cid : Nat) :
    resultFrame env (bitmapExtendBase env cid) := by
  rw [bitmapExtendBase]
  split
  · exact resultFrame_set _ cid _ ⟨rfl, rfl, rfl⟩ rfl rfl
  · exact resultFrame_refl env

lemma bitmapAddOwn_frame (env : CompUnit) (cid : Nat) :
    resultFrame env (bitmapAddOwn env cid) :=
  resultFrame_set _ cid _ ⟨rfl, rfl, rfl⟩ rfl rfl

lemma bitmapTraitStep_frame (cid : Nat) (env : CompUnit) (b : Nat) :
    resultFrame env (bitmapTraitStep cid env b) := by
  rw [bitmapTraitStep]
  split
  · exact resultFrame_set _ cid _ ⟨rfl, rfl, rfl⟩ rfl rfl
  · exact resultFrame_refl env

lemma detectBody_frame (env : CompUnit) (cid : Nat) :
    resultFrame env (detectBody env cid) := by
  rw [detectBody]
  refine resultFrame_trans (resultFrame_trans (bitmapExtendBase_frame env cid)
    (bitmapAddOwn_frame _ cid)) ?_
  refine foldl_inv (fun e2 => resultFrame (bitmapAddOwn (bitmapExtendBase env cid) cid) e2)
    (bitmapTraitStep cid) _ (fun s x hs => resultFrame_trans hs (bitmapTraitStep_frame cid s x))
    _ (resultFrame_refl _)

lemma detect_frame :
    ∀ (fuel c : Nat) (st : CompUnit × Finset Nat),
      resultFrame st.1 (detect_undefined_bitmap fuel c st).1 := by
  intro fuel
  induction fuel with
  | zero => exact fun c st => resultFrame_refl st.1
  | succ n ih =>
    intro c st
    obtain ⟨env, seen⟩ := st
    rw [detect_undefined_bitmap]
    dsimp only
    split
    · exact resultFrame_refl env
    · split
      · exact resultFrame_refl env
      · refine resultFrame_trans
          (foldl_inv (fun st2 => resultFrame env st2.1)
            (fun st2 _b => detect_undefined_bitmap n c st2)
            ((getCl env c).base_mro.tail)
            (fun s x hs => resultFrame_trans hs (ih c s))
            (env, insert c seen) (resultFrame_refl env)) ?_
        exact detectBody_frame _ c


/-- C9 amended: provided a class's deletable attributes are disjoint from
its class body defaults and from its initial result set, no deletable
attribute appears in its always set after the full pipeline: the resolver
branch with a constructor filters deletables explicitly, the branch
without one copies the defaults, the subclass propagation pass only
shrinks the set, and the bitmap pass leaves it unchanged.  Without the
disjointness assumption the claim fails, as the C9 counterexample shows,
because the no-constructor branch copies the defaults unfiltered. -/
theorem C9_deletable_disjoint_after_pipeline (env out : CompUnit) (cid : Nat)
    (hwd : ∀ a ∈ (getCl env cid).attrs_with_defaults, a ∉ (getCl env cid).deletable)
    (hstart : ∀ a ∈ (getCl env cid)._always_initialized_attrs,
      a ∉ (getCl env cid).deletable)
    (hout : analyze_always_defined_attrs env = some out) :
    ∀ a ∈ (getCl out cid)._always_initialized_attrs, a ∉ (getCl env cid).deletable := by
  rw [analyze_always_defined_attrs] at hout
  dsimp only at hout
  have h1 : C9Inv cid (getCl env cid).deletable (getCl env cid).attrs_with_defaults
      ((List.range env.length).foldl
        (fun st c => analyze_always_defined_attrs_in_class (env.length + 1) c st)
        (env, (∅ : Finset Nat))).1 :=
    foldl_inv (fun st => C9Inv cid (getCl env cid).deletable
        (getCl env cid).attrs_with_defaults st.1)
      (fun st c => analyze_always_defined_attrs_in_class (env.length + 1) c st)
      (List.range env.length)
      (fun s x hs => analyzeInClass_C9 cid _ _ hwd (env.length + 1) x s hs)
      (env, ∅) ⟨rfl, rfl, hstart⟩
  split at hout
  · exact absurd hout (by simp)
  · rename_i st2 hst2
    cases hout
    have h2 : C9Inv cid (getCl env cid).deletable (getCl env cid).attrs_with_defaults
        st2.1 :=
      foldl_bind_inv
        (fun s => C9Inv cid (getCl env cid).deletable
          (getCl env cid).attrs_with_defaults s.1)
        (fun c s => update_always_defined_attrs_using_subclasses (env.length + 1) c s)
        (List.range env.length)
        (fun x s s2 hg hs => updateSub_C9 cid _ _ (env.length + 1) x s s2 hg hs)
        _ st2 hst2 (fun s hs => by cases hs; exact h1)
    have h3 : resultFrame st2.1
        ((List.range env.length).foldl
          (fun st c => detect_undefined_bitmap (env.length + 1) c st)
          (st2.1, (∅ : Finset Nat))).1 :=
      foldl_inv (fun st => resultFrame st2.1 st.1)
        (fun st c => detect_undefined_bitmap (env.length + 1) c st)
        (List.range env.length)
        (fun s x hs => resultFrame_trans hs (detect_frame (env.length + 1) x s))
        (st2.1, ∅) (resultFrame_refl st2.1)
    intro a ha
    rw [(h3 cid).2.1] at ha
    exact h2.2.2 a ha

/-- C9 witness: on a unit whose deletable attribute has no default, the
deletable attribute is absent from the always set after the pipeline. -/
theorem C9_deletable_disjoint_after_pipeline_witness :
    "y" ∉ (getCl (analyzeAll exampleC9b) 0)._always_initialized_attrs := by
  have hsome : (analyze_always_defined_attrs exampleC9b).isSome = true := by decide
  have h : analyze_always_defined_attrs exampleC9b = some (analyzeAll exampleC9b) := by
    cases hs : analyze_always_defined_attrs exampleC9b with
    | none => rw [hs] at hsome; exact absurd hsome (by simp)
    | some v =>
      rw [analyzeAll, hs]
      rfl
  intro hy
  exact C9_deletable_disjoint_after_pipeline exampleC9b (analyzeAll exampleC9b) 0
    (by decide) (by decide) h "y" hy (by decide)

lemma staticsFrame_refl (env : CompUnit) : staticsFrame env env :=
  fun _ => sameStatics_refl _

lemma staticsFrame_trans {e1 e2 e3 : CompUnit} (h1 : staticsFrame e1 e2)
    (h2 : staticsFrame e2 e3) : staticsFrame e1 e3 :=
  fun k => sameStatics_trans (h2 k) (h1 k)

lemma staticsFrame_set (env : CompUnit) (c : Nat) (x : ClassIR)
    (hstat : sameStatics x (getCl env c)) : staticsFrame env (env.set c x) := by
  intro k
  by_cases hk : k = c
  · subst hk
    rcases getCl_set_self env k x with heq | heq
    · rw [heq]; exact hstat
    · rw [heq]; exact sameStatics_refl _
  · rw [getCl_set_ne env c k x hk]
    exact sameStatics_refl _

lemma analyzeInClass_staticsFrame :
    ∀ (fuel c : Nat) (st : CompUnit × Finset Nat),
      staticsFrame st.1 (analyze_always_defined_attrs_in_class fuel c st).1 := by
  intro fuel
  induction fuel with
  | zero => exact fun c st => staticsFrame_refl st.1
  | succ n ih =>
    intro c st
    obtain ⟨env, seen⟩ := st
    rw [analyze_always_defined_attrs_in_class]
    dsimp only
    split
    · exact staticsFrame_refl env
    · split
      · exact staticsFrame_refl env
      · have hfold : staticsFrame env
            ((getCl env c).mro.tail.foldl
              (fun st b => analyze_always_defined_attrs_in_class n b st)
              (env, insert c seen)).1 :=
          foldl_inv (fun st2 => staticsFrame env st2.1)
            (fun st2 b => analyze_always_defined_attrs_in_class n b st2)
            ((getCl env c).mro.tail)
            (fun s x hs => staticsFrame_trans hs (ih x s))
            (env, insert c seen) (staticsFrame_refl env)
        set st1 := (getCl env c).mro.tail.foldl
          (fun st b => analyze_always_defined_attrs_in_class n b st)
          (env, insert c seen) with hst1
        cases hi : (getCl st1.1 c).init with
        | none =>
          simp only [hi]
          exact staticsFrame_trans hfold
            (staticsFrame_set st1.1 c _ (analyzedClassNoInit_statics st1.1 c))
        | some m =>
          simp only [hi]
          exact staticsFrame_trans hfold
            (staticsFrame_set st1.1 c _ (analyzedClass_statics st1.1 c m))

lemma rank_le_of_RTG (kids : Nat → Option (List Nat)) (rank : Nat → Nat)
    (hrank : ∀ p cs c2, kids p = some cs → c2 ∈ cs → rank c2 < rank p) :
    ∀ {x y : Nat}, Relation.ReflTransGen (kidRel kids) x y → rank y ≤ rank x := by
  intro x y h
  induction h with
  | refl => exact Nat.le_refl _
  | tail hxz hzy ih =>
    rcases hzy with ⟨cs, hk, hmem⟩
    exact Nat.le_trans (Nat.le_of_lt (hrank _ cs _ hk hmem)) ih

lemma RTG_of_none (kids : Nat → Option (List Nat)) {x d : Nat} (hx : kids x = none)
    (h : Relation.ReflTransGen (kidRel kids) x d) : d = x := by
  rcases h.cases_head with heq | ⟨y, hxy, -⟩
  · exact heq.symm
  · rcases hxy with ⟨cs, hk, -⟩
    rw [hx] at hk
    exact Option.noConfusion hk

lemma foldl_bind_none {σ β : Type} (g : β → σ → Option σ) (l : List β) :
    l.foldl (fun acc x => acc.bind (g x)) none = none := by
  induction l with
  | nil => rfl
  | cons x xs ih => exact ih


lemma Evolves_refl (kids : Nat → Option (List Nat)) (R : Nat → Prop)
    (st : CompUnit × Finset Nat)
    (hk : ∀ k, (getCl st.1 k).children = kids k) (hi : C4Inv kids st) :
    Evolves kids R st st :=
  ⟨hk, rfl, subset_rfl, fun _ _ => rfl, fun _ hk2 => Or.inl hk2, hi⟩

lemma Evolves_trans {kids : Nat → Option (List Nat)} {R1 R2 : Nat → Prop}
    {st st2 st3 : CompUnit × Finset Nat}
    (h1 : Evolves kids R1 st st2) (h2 : Evolves kids R2 st2 st3) :
    Evolves kids (fun k => R1 k ∨ R2 k) st st3 := by
  refine ⟨h2.kidsPres, h2.lenEq.trans h1.lenEq, h1.seenMono.trans h2.seenMono, ?_, ?_, h2.inv⟩
  · intro k hk
    have hk2 : k ∉ st2.2 := fun hmem => hk (h2.seenMono hmem)
    exact (h2.unseenFrozen k hk).trans (h1.unseenFrozen k hk2)
  · intro k hk
    rcases h2.newSeen k hk with hmem | hr
    · rcases h1.newSeen k hmem with hmem2 | hr
      · exact Or.inl hmem2
      · exact Or.inr (Or.inl hr)
    · exact Or.inr (Or.inr hr)

lemma Evolves_weaken {kids : Nat → Option (List Nat)} {R R2 : Nat → Prop}
    {st st2 : CompUnit × Finset Nat} (h : Evolves kids R st st2)
    (hw : ∀ k, R k → R2 k) : Evolves kids R2 st st2 :=
  ⟨h.kidsPres, h.lenEq, h.seenMono, h.unseenFrozen,
    fun k hk => (h.newSeen k hk).imp id (hw k), h.inv⟩

lemma updateSub_fold_evolves (kids : Nat → Option (List Nat)) (fuel : Nat)
    (hsingle : ∀ (c : Nat) (st st2 : CompUnit × Finset Nat),
      update_always_defined_attrs_using_subclasses fuel c st = some st2 →
      (∀ k, (getCl st.1 k).children = kids k) → C4Inv kids st →
      Evolves kids (Relation.ReflTransGen (kidRel kids) c) st st2
        ∧ (∀ cs2, kids c = some cs2 → c ∈ st2.2)) :
    ∀ (l : List Nat) (st st2 : CompUnit × Finset Nat),
      l.foldl (fun acc ch => acc.bind
        (fun s => update_always_defined_attrs_using_subclasses fuel ch s)) (some st)
        = some st2 →
      (∀ k, (getCl st.1 k).children = kids k) → C4Inv kids st →
      Evolves kids
          (fun k => ∃ ch ∈ l, Relation.ReflTransGen (kidRel kids) ch k) st st2
        ∧ (∀ ch ∈ l, ∀ cs2, kids ch = some cs2 → ch ∈ st2.2) := by
  intro l
  induction l with
  | nil =>
    intro st st2 hf hk hi
    cases hf
    exact ⟨Evolves_refl kids _ st hk hi, fun ch hch => absurd hch (List.not_mem_nil ch)⟩
  | cons ch l2 ih =>
    intro st st2 hf hk hi
    cases hch : update_always_defined_attrs_using_subclasses fuel ch st with
    | none =>
      rw [List.foldl_cons] at hf
      rw [show ((some st).bind
          (fun s => update_always_defined_attrs_using_subclasses fuel ch s)) = none by
        simpa using hch] at hf
      rw [foldl_bind_none] at hf
      exact Option.noConfusion hf
    | some stm =>
      rw [List.foldl_cons] at hf
      rw [show ((some st).bind
          (fun s => update_always_defined_attrs_using_subclasses fuel ch s)) = some stm by
        simpa using hch] at hf
      obtain ⟨hev1, hin1⟩ := hsingle ch st stm hch hk hi
      obtain ⟨hev2, hin2⟩ := ih stm st2 hf hev1.kidsPres hev1.inv
      constructor
      · refine Evolves_weaken (Evolves_trans hev1 hev2) ?_
        intro k hk2
        rcases hk2 with hr | ⟨ch2, hch2, hr⟩
        · exact ⟨ch, List.mem_cons_self ch l2, hr⟩
        · exact ⟨ch2, List.mem_cons_of_mem ch hch2, hr⟩
      · intro ch2 hch2 cs2 hk2
        rcases List.mem_cons.mp hch2 with rfl | hmem
        · exact hev2.seenMono (hin1 cs2 hk2)
        · exact hin2 ch2 hmem cs2 hk2


lemma updateSub_finish (kids : Nat → Option (List Nat)) (rank : Nat → Nat)
    (hrank : ∀ p cs c2, kids p = some cs → c2 ∈ cs → rank c2 < rank p)
    (c : Nat) (cs : List Nat) (env : CompUnit) (seen : Finset Nat)
    (st3 : CompUnit × Finset Nat)
    (hkc : kids c = some cs) (hcseen : c ∉ seen)
    (hev : Evolves kids
      (fun k => ∃ ch ∈ cs, Relation.ReflTransGen (kidRel kids) ch k) (env, seen) st3)
    (hmem : (getCl env c)._always_initialized_attrs ≠ ∅ →
      ∀ ch ∈ cs, ∀ cs2, kids ch = some cs2 → ch ∈ st3.2) :
    Evolves kids (Relation.ReflTransGen (kidRel kids) c) (env, seen)
      (st3.1.set c (subclassUpdatedClass env st3.1 c cs), insert c st3.2) := by
  have hc3 : c ∉ st3.2 := by
    intro hmem3
    rcases hev.newSeen c hmem3 with hs | ⟨ch, hch, hr⟩
    · exact hcseen hs
    · have h1 : rank c ≤ rank ch := rank_le_of_RTG kids rank hrank hr
      have h2 : rank ch < rank c := hrank c cs ch hkc hch
      omega
  have hfrozenc : getCl st3.1 c = getCl env c := hev.unseenFrozen c hc3
  have hclt : c < st3.1.length := by
    by_contra hge
    have hd : getCl st3.1 c = default := by
      rw [getCl, List.getD_eq_default]
      omega
    have hkp := hev.kidsPres c
    rw [hd] at hkp
    rw [hkc] at hkp
    exact Option.noConfusion hkp
  have hgetc : getCl (st3.1.set c (subclassUpdatedClass env st3.1 c cs)) c
      = subclassUpdatedClass env st3.1 c cs :=
    getCl_set_eq st3.1 c _ hclt
  have halwaysX : (subclassUpdatedClass env st3.1 c cs)._always_initialized_attrs
      = (getCl env c)._always_initialized_attrs \
          ((getCl env c)._always_initialized_attrs).filter
            (fun a => cs.any (fun child =>
              decide (a ∉ (getCl st3.1 child)._always_initialized_attrs)) = true) := by
    show (getCl st3.1 c)._always_initialized_attrs \ _ = _
    rw [hfrozenc]
  refine ⟨?_, ?_, ?_, ?_, ?_, ?_⟩
  · intro k
    by_cases hk2 : k = c
    · subst hk2
      rw [hgetc]
      show (getCl st3.1 k).children = kids k
      exact hev.kidsPres k
    · rw [getCl_set_ne st3.1 c k _ hk2]
      exact hev.kidsPres k
  · rw [List.length_set]
    exact hev.lenEq
  · exact hev.seenMono.trans (Finset.subset_insert c st3.2)
  · intro k hk2
    have hkc2 : k ≠ c := fun heq => hk2 (heq ▸ Finset.mem_insert_self c st3.2)
    have hk3 : k ∉ st3.2 := fun hmem3 => hk2 (Finset.mem_insert_of_mem hmem3)
    rw [getCl_set_ne st3.1 c k _ hkc2]
    exact hev.unseenFrozen k hk3
  · intro k hk2
    rcases Finset.mem_insert.mp hk2 with rfl | hmem3
    · exact Or.inr Relation.ReflTransGen.refl
    · rcases hev.newSeen k hmem3 with hs | ⟨ch, hch, hr⟩
      · exact Or.inl hs
      · exact Or.inr (Relation.ReflTransGen.head ⟨cs, hkc, hch⟩ hr)
  · intro c2 hc2 cs2 hkc2 ch2 hch2
    by_cases hcc : c2 = c
    · subst hcc
      have hcs2 : cs2 = cs := by
        rw [hkc] at hkc2
        exact (Option.some.inj hkc2).symm
      subst hcs2
      have hch2c : ch2 ≠ c2 := by
        intro heq
        have hlt := hrank c2 cs2 ch2 hkc hch2
        rw [heq] at hlt
        omega
      rw [hgetc]
      constructor
      · intro a ha
        rw [getCl_set_ne st3.1 c2 ch2 _ hch2c]
        rw [halwaysX] at ha
        rw [Finset.mem_sdiff] at ha
        rcases ha with ⟨hin, hnotrem⟩
        by_contra hnot
        refine hnotrem (Finset.mem_filter.mpr ⟨hin, ?_⟩)
        rw [List.any_eq_true]
        refine ⟨ch2, hch2, ?_⟩
        simpa using hnot
      · by_cases hempty : (getCl env c2)._always_initialized_attrs = ∅
        · left
          rw [halwaysX, hempty]
          exact Finset.empty_sdiff _
        · cases hkch2 : kids ch2 with
          | none => exact Or.inr (Or.inr rfl)
          | some cs3 =>
            exact Or.inr (Or.inl (Finset.mem_insert_of_mem
              (hmem hempty ch2 hch2 cs3 hkch2)))
    · have hc2m : c2 ∈ st3.2 := by
        rcases Finset.mem_insert.mp hc2 with heq | hmem3
        · exact absurd heq hcc
        · exact hmem3
      rw [getCl_set_ne st3.1 c c2 _ hcc]
      obtain ⟨hsub, hdisj⟩ := hev.inv c2 hc2m cs2 hkc2 ch2 hch2
      constructor
      · by_cases hch2c : ch2 = c
        · subst hch2c
          rw [hgetc]
          rcases hdisj with hemp | hmem3 | hnone
          · intro a ha
            rw [hemp] at ha
            exact absurd ha (Finset.not_mem_empty a)
          · exact absurd hmem3 hc3
          · rw [hkc] at hnone
            exact Option.noConfusion hnone
        · rw [getCl_set_ne st3.1 c ch2 _ hch2c]
          exact hsub
      · rcases hdisj with hemp | hmem3 | hnone
        · exact Or.inl hemp
        · exact Or.inr (Or.inl (Finset.mem_insert_of_mem hmem3))
        · exact Or.inr (Or.inr hnone)


lemma updateSub_evolves (kids : Nat → Option (List Nat)) (rank : Nat → Nat)
    (hrank : ∀ p cs c2, kids p = some cs → c2 ∈ cs → rank c2 < rank p) :
    ∀ (fuel : Nat) (c : Nat) (st st2 : CompUnit × Finset Nat),
      update_always_defined_attrs_using_subclasses fuel c st = some st2 →
      (∀ k, (getCl st.1 k).children = kids k) → C4Inv kids st →
      Evolves kids (Relation.ReflTransGen (kidRel kids) c) st st2
        ∧ (∀ cs2, kids c = some cs2 → c ∈ st2.2) := by
  intro fuel
  induction fuel with
  | zero =>
    intro c st st2 h
    exact absurd h (by simp [update_always_defined_attrs_using_subclasses])
  | succ n ih =>
    intro c st st2 h hk hi
    obtain ⟨env, seen⟩ := st
    simp only [update_always_defined_attrs_using_subclasses] at h
    by_cases hcseen : c ∈ seen
    · rw [if_pos hcseen] at h
      cases h
      exact ⟨Evolves_refl kids _ _ hk hi, fun cs2 _ => hcseen⟩
    · rw [if_neg hcseen] at h
      cases hkc : (getCl env c).children with
      | none =>
        rw [hkc] at h
        cases h
        refine ⟨Evolves_refl kids _ _ hk hi, fun cs2 hk2 => ?_⟩
        rw [← hk c, hkc] at hk2
        exact Option.noConfusion hk2
      | some cs =>
        simp only [hkc] at h
        have hkidc : kids c = some cs := (hk c).symm.trans hkc
        by_cases hcard : ((getCl env c)._always_initialized_attrs).card = 0
        · rw [if_pos hcard] at h
          cases h
          refine ⟨updateSub_finish kids rank hrank c cs env seen (env, seen)
            hkidc hcseen (Evolves_refl kids _ _ hk hi) ?_,
            fun cs2 _ => Finset.mem_insert_self c seen⟩
          intro hne
          exact absurd (Finset.card_eq_zero.mp hcard) hne
        · rw [if_neg hcard] at h
          cases hloop : cs.foldl
              (fun acc child => acc.bind
                (fun st2 => update_always_defined_attrs_using_subclasses n child st2))
              (some (env, seen)) with
          | none =>
            rw [hloop] at h
            exact Option.noConfusion h
          | some st3 =>
            rw [hloop] at h
            cases h
            obtain ⟨hev, hin⟩ := updateSub_fold_evolves kids n ih cs (env, seen) st3 hloop hk hi
            exact ⟨updateSub_finish kids rank hrank c cs env seen st3 hkidc hcseen hev
              (fun _ ch hch cs2 hk2 => hin ch hch cs2 hk2),
              fun cs2 _ => Finset.mem_insert_self c st3.2⟩

lemma C4Inv_descend (kids : Nat → Option (List Nat)) (st : CompUnit × Finset Nat)
    (hi : C4Inv kids st) :
    ∀ {c d : Nat}, Relation.ReflTransGen (kidRel kids) c d → c ∈ st.2 →
      (getCl st.1 c)._always_initialized_attrs
        ⊆ (getCl st.1 d)._always_initialized_attrs := by
  intro c d h
  induction h using Relation.ReflTransGen.head_induction_on with
  | refl => exact fun _ => subset_rfl
  | head hstep htail ih =>
    intro hcmem
    rcases hstep with ⟨cs, hkc, hmem⟩
    obtain ⟨hsub, hdisj⟩ := hi _ hcmem cs hkc _ hmem
    rcases hdisj with hemp | hmem2 | hnone
    · intro a ha
      rw [hemp] at ha
      exact absurd ha (Finset.not_mem_empty a)
    · exact hsub.trans (ih hmem2)
    · rw [RTG_of_none kids hnone htail]
      exact hsub

lemma rankOk_spread (env : CompUnit) (rank : Nat → Nat) (h : rankOk env rank) :
    ∀ p cs c2, (getCl env p).children = some cs → c2 ∈ cs → rank c2 < rank p := by
  intro p cs c2 hp hc2
  by_cases hlt : p < env.length
  · refine h p (List.mem_range.mpr hlt) c2 ?_
    rw [hp]
    exact hc2
  · rw [getCl, List.getD_eq_default env default (Nat.le_of_not_lt hlt)] at hp
    exact Option.noConfusion hp

/-- C4: after the subclass propagation pass (the bitmap pass that follows
leaves the attribute sets unchanged), for every class whose children list is
statically known, every attribute in its always-initialized set is also in
the always-initialized set of every descendant reached transitively through
the children relation.  The rank hypothesis expresses that the children
relation is acyclic, as it is for a class hierarchy. -/
theorem C4_subclass_propagation_sound (env out : CompUnit) (rank : Nat → Nat)
    (hrank : rankOk env rank)
    (hout : analyze_always_defined_attrs env = some out)
    (cid d : Nat) (cs0 : List Nat)
    (hkids : (getCl env cid).children = some cs0)
    (hdesc : Relation.ReflTransGen
      (kidRel (fun k => (getCl env k).children)) cid d) :
    (getCl out cid)._always_initialized_attrs
      ⊆ (getCl out d)._always_initialized_attrs := by
  have hrank2 := rankOk_spread env rank hrank
  rw [analyze_always_defined_attrs] at hout
  dsimp only at hout
  have hstat1 : staticsFrame env
      ((List.range env.length).foldl
        (fun st c => analyze_always_defined_attrs_in_class (env.length + 1) c st)
        (env, (∅ : Finset Nat))).1 :=
    foldl_inv (fun st => staticsFrame env st.1)
      (fun st c => analyze_always_defined_attrs_in_class (env.length + 1) c st)
      (List.range env.length)
      (fun s x hs => staticsFrame_trans hs
        (analyzeInClass_staticsFrame (env.length + 1) x s))
      (env, ∅) (staticsFrame_refl env)
  split at hout
  · exact absurd hout (by simp)
  · rename_i st2 hst2
    cases hout
    obtain ⟨hev, hin⟩ := updateSub_fold_evolves
      (fun k => (getCl env k).children) (env.length + 1)
      (updateSub_evolves (fun k => (getCl env k).children) rank hrank2 (env.length + 1))
      (List.range env.length) (_, ∅) st2 hst2
      (fun k => (hstat1 k).1)
      (fun c hc => absurd hc (Finset.not_mem_empty c))
    have hcidlt : cid < env.length := by
      by_contra hge
      rw [getCl, List.getD_eq_default env default (Nat.le_of_not_lt hge)] at hkids
      exact Option.noConfusion hkids
    have hcidseen : cid ∈ st2.2 :=
      hin cid (List.mem_range.mpr hcidlt) cs0 hkids
    have hsub2 := C4Inv_descend (fun k => (getCl env k).children) st2 hev.inv
      hdesc hcidseen
    have h3 : resultFrame st2.1
        ((List.range env.length).foldl
          (fun st c => detect_undefined_bitmap (env.length + 1) c st)
          (st2.1, (∅ : Finset Nat))).1 :=
      foldl_inv (fun st => resultFrame st2.1 st.1)
        (fun st c => detect_undefined_bitmap (env.length + 1) c st)
        (List.range env.length)
        (fun s x hs => resultFrame_trans hs (detect_frame (env.length + 1) x s))
        (st2.1, ∅) (resultFrame_refl st2.1)
    intro a ha
    rw [(h3 cid).2.1] at ha
    rw [(h3 d).2.1]
    exact hsub2 ha

/-- C4 witness: on the two-class unit exampleC7, the base class's
always-initialized set after the full pipeline is contained in its child's. -/
theorem C4_subclass_propagation_sound_witness :
    (getCl (analyzeAll exampleC7) 0)._always_initialized_attrs
      ⊆ (getCl (analyzeAll exampleC7) 1)._always_initialized_attrs := by
  have hsome : (analyze_always_defined_attrs exampleC7).isSome = true := by decide
  have h : analyze_always_defined_attrs exampleC7 = some (analyzeAll exampleC7) := by
    cases hs : analyze_always_defined_attrs exampleC7 with
    | none => rw [hs] at hsome; exact absurd hsome (by simp)
    | some v => rw [analyzeAll, hs]; rfl
  exact C4_subclass_propagation_sound exampleC7 (analyzeAll exampleC7)
    (fun c => if c = 0 then 1 else 0) (by decide) h 0 1 [1] (by decide)
    (Relation.ReflTransGen.single ⟨[1], by decide, by decide⟩)

end AttrDefined
